import Mathlib

/-!
Verification development for the xk6-encoding repository.

The repository implements the WHATWG TextDecoder / TextEncoder interfaces for
UTF-8, UTF-16LE and UTF-16BE on top of the transformers of the
golang.org/x/text library.  This file gives a shallow embedding of:

  * the x/text transformers actually used by the code
    (the UTF-8 decoder transform, the UTF-16 decoder transform with its
    byte-order-mark policy, and the BOMOverride wrapper),
  * the functions of src/encoding/text_decoder.go
    (detectInvalidUTF8Sequences, canCompleteUTF8Sequence,
    isValidUTF8ContinuationByte, NewTextDecoder, TextDecoder.Decode), and
  * TextEncoder.Encode of src/encoding/text_encoder.go,

and proves / refutes the specification claims about them.

Modelling conventions:

  * A Go byte is a natural number; inputs are lists of naturals, and all
    theorems about concrete byte inputs use values below 256.  Go bit tests
    on bytes are translated to the equivalent range tests, for example
    b&0xC0 == 0x80 becomes 0x80 <= b < 0xC0, and b&0x80 == 0 becomes
    b < 0x80.
  * A Go string is represented by the list of its bytes (a Go string is a
    byte sequence; for a string made of Unicode scalar values these are its
    UTF-8 bytes).
  * The destination buffers allocated by Decode are always large enough for
    the transforms it performs (the code allocates 4 bytes of destination
    per source byte plus room for the replacement characters), so the
    transformer models do not track destination exhaustion and
    transform.ErrShortDst never arises.  Consequently the only error a
    transformer can produce here is ErrShortSrc, modelled as a Boolean.
-/

namespace XK6

/-- Byte sequence of the UTF-8 encoding of U+FFFD, the replacement character. -/
def repl : List Nat := [0xEF, 0xBF, 0xBD]

/-- The Go utf8.EncodeRune function as a function to a byte list: UTF-8
encoding of a code point, with surrogates and out-of-range values encoded
as U+FFFD. -/
def utf8Enc (c : Nat) : List Nat :=
  if c < 0x80 then [c]
  else if c < 0x800 then [0xC0 + c / 64, 0x80 + c % 64]
  else if 0xD800 ≤ c ∧ c ≤ 0xDFFF then repl
  else if c < 0x10000 then [0xE0 + c / 4096, 0x80 + (c / 64) % 64, 0x80 + c % 64]
  else if c ≤ 0x10FFFF then
    [0xF0 + c / 0x40000, 0x80 + (c / 4096) % 64, 0x80 + (c / 64) % 64, 0x80 + c % 64]
  else repl

/-- Lower bound of the valid range for the first continuation byte after the
given lead byte (the AcceptRanges table of the Go utf8 implementation used by
the x/text UTF-8 transformer). -/
def acceptLo (b : Nat) : Nat :=
  if b = 0xE0 then 0xA0 else if b = 0xF0 then 0x90 else 0x80

/-- Upper bound of the valid range for the first continuation byte after the
given lead byte. -/
def acceptHi (b : Nat) : Nat :=
  if b = 0xED then 0x9F else if b = 0xF4 then 0x8F else 0xBF

/-- Model of the utf8Decoder transformer of golang.org/x/text/encoding/unicode.

Scans the source left to right; copies well-formed sequences verbatim,
replaces each maximal ill-formed subpart by one U+FFFD, and on a truncated
trailing sequence either reports ErrShortSrc (when atEOF is false) or
replaces the maximal subpart of the truncated sequence (when atEOF is true).
Returns (output bytes, number of source bytes consumed, ErrShortSrc flag).
Lead bytes 0xC0, 0xC1, 0xF5..0xFF and stray continuation bytes are invalid
starters consuming one byte each. -/
def utf8T : List Nat → Bool → List Nat × Nat × Bool
  | [], _ => ([], 0, false)
  | [b], atEOF =>
    if b < 0x80 then ([b], 1, false)
    else if (0xC2 ≤ b ∧ b ≤ 0xDF) ∨ (0xE0 ≤ b ∧ b ≤ 0xEF) ∨ (0xF0 ≤ b ∧ b ≤ 0xF4) then
      -- truncated multi-byte sequence: maximal subpart of size one at EOF
      if atEOF then (repl, 1, false) else ([], 0, true)
    else (repl, 1, false)
  | [b, c1], atEOF =>
    if b < 0x80 then
      let r := utf8T [c1] atEOF
      (b :: r.1, r.2.1 + 1, r.2.2)
    else if 0xC2 ≤ b ∧ b ≤ 0xDF then
      if acceptLo b ≤ c1 ∧ c1 ≤ acceptHi b then ([b, c1], 2, false)
      else
        let r := utf8T [c1] atEOF
        (repl ++ r.1, r.2.1 + 1, r.2.2)
    else if (0xE0 ≤ b ∧ b ≤ 0xEF) ∨ (0xF0 ≤ b ∧ b ≤ 0xF4) then
      -- truncated three- or four-byte sequence with two bytes available
      if atEOF then
        if acceptLo b ≤ c1 ∧ c1 ≤ acceptHi b then (repl, 2, false)
        else
          let r := utf8T [c1] atEOF
          (repl ++ r.1, r.2.1 + 1, r.2.2)
      else ([], 0, true)
    else
      let r := utf8T [c1] atEOF
      (repl ++ r.1, r.2.1 + 1, r.2.2)
  | [b, c1, c2], atEOF =>
    if b < 0x80 then
      let r := utf8T [c1, c2] atEOF
      (b :: r.1, r.2.1 + 1, r.2.2)
    else if 0xC2 ≤ b ∧ b ≤ 0xDF then
      if acceptLo b ≤ c1 ∧ c1 ≤ acceptHi b then
        let r := utf8T [c2] atEOF
        (b :: c1 :: r.1, r.2.1 + 2, r.2.2)
      else
        let r := utf8T [c1, c2] atEOF
        (repl ++ r.1, r.2.1 + 1, r.2.2)
    else if 0xE0 ≤ b ∧ b ≤ 0xEF then
      if acceptLo b ≤ c1 ∧ c1 ≤ acceptHi b then
        if 0x80 ≤ c2 ∧ c2 ≤ 0xBF then ([b, c1, c2], 3, false)
        else
          let r := utf8T [c2] atEOF
          (repl ++ r.1, r.2.1 + 2, r.2.2)
      else
        let r := utf8T [c1, c2] atEOF
        (repl ++ r.1, r.2.1 + 1, r.2.2)
    else if 0xF0 ≤ b ∧ b ≤ 0xF4 then
      -- truncated four-byte sequence with three bytes available
      if atEOF then
        if acceptLo b ≤ c1 ∧ c1 ≤ acceptHi b then
          if 0x80 ≤ c2 ∧ c2 ≤ 0xBF then (repl, 3, false)
          else
            let r := utf8T [c2] atEOF
            (repl ++ r.1, r.2.1 + 2, r.2.2)
        else
          let r := utf8T [c1, c2] atEOF
          (repl ++ r.1, r.2.1 + 1, r.2.2)
      else ([], 0, true)
    else
      let r := utf8T [c1, c2] atEOF
      (repl ++ r.1, r.2.1 + 1, r.2.2)
  | b :: c1 :: c2 :: c3 :: rest4, atEOF =>
    if b < 0x80 then
      let r := utf8T (c1 :: c2 :: c3 :: rest4) atEOF
      (b :: r.1, r.2.1 + 1, r.2.2)
    else if 0xC2 ≤ b ∧ b ≤ 0xDF then
      if acceptLo b ≤ c1 ∧ c1 ≤ acceptHi b then
        let r := utf8T (c2 :: c3 :: rest4) atEOF
        (b :: c1 :: r.1, r.2.1 + 2, r.2.2)
      else
        let r := utf8T (c1 :: c2 :: c3 :: rest4) atEOF
        (repl ++ r.1, r.2.1 + 1, r.2.2)
    else if 0xE0 ≤ b ∧ b ≤ 0xEF then
      if acceptLo b ≤ c1 ∧ c1 ≤ acceptHi b then
        if 0x80 ≤ c2 ∧ c2 ≤ 0xBF then
          let r := utf8T (c3 :: rest4) atEOF
          (b :: c1 :: c2 :: r.1, r.2.1 + 3, r.2.2)
        else
          let r := utf8T (c2 :: c3 :: rest4) atEOF
          (repl ++ r.1, r.2.1 + 2, r.2.2)
      else
        let r := utf8T (c1 :: c2 :: c3 :: rest4) atEOF
        (repl ++ r.1, r.2.1 + 1, r.2.2)
    else if 0xF0 ≤ b ∧ b ≤ 0xF4 then
      if acceptLo b ≤ c1 ∧ c1 ≤ acceptHi b then
        if 0x80 ≤ c2 ∧ c2 ≤ 0xBF then
          if 0x80 ≤ c3 ∧ c3 ≤ 0xBF then
            let r := utf8T rest4 atEOF
            (b :: c1 :: c2 :: c3 :: r.1, r.2.1 + 4, r.2.2)
          else
            let r := utf8T (c3 :: rest4) atEOF
            (repl ++ r.1, r.2.1 + 3, r.2.2)
        else
          let r := utf8T (c2 :: c3 :: rest4) atEOF
          (repl ++ r.1, r.2.1 + 2, r.2.2)
      else
        let r := utf8T (c1 :: c2 :: c3 :: rest4) atEOF
        (repl ++ r.1, r.2.1 + 1, r.2.2)
    else
      let r := utf8T (c1 :: c2 :: c3 :: rest4) atEOF
      (repl ++ r.1, r.2.1 + 1, r.2.2)

example : utf8T [0x41, 0xFF, 0x42] true = ([0x41] ++ repl ++ [0x42], 3, false) := by decide
example : utf8T [0xF0, 0x9F, 0x41] true = (repl ++ [0x41], 3, false) := by decide
example : utf8T [0xE0, 0x80] true = (repl ++ repl, 2, false) := by decide
example : utf8T [0xF0, 0x9F] false = ([], 0, true) := by decide
example : utf8T [0xEF, 0xBF, 0xBD] true = ([0xEF, 0xBF, 0xBD], 3, false) := by decide

/-- Byte order of a 16-bit code unit stream. -/
inductive Endian
  | le
  | be
deriving DecidableEq

/-- A 16-bit code unit read from two bytes in the given byte order (for the
big-endian order the unit is src0 shifted left by eight bits or-ed with src1,
and for little-endian the two bytes are swapped, as in the x/text decoder). -/
def utf16Unit (e : Endian) (b0 b1 : Nat) : Nat :=
  match e with
  | .be => b0 * 256 + b1
  | .le => b1 * 256 + b0

/-- The Go utf16.DecodeRune function: combines a surrogate pair into a
supplementary code point, or yields U+FFFD when the first unit is not a high
surrogate (the second unit is already known to lie in 0xDC00..0xDFFF at the
call site). -/
def surrPair (x y : Nat) : Nat :=
  if 0xD800 ≤ x ∧ x ≤ 0xDBFF then 0x10000 + (x - 0xD800) * 1024 + (y - 0xDC00)
  else 0xFFFD

/-- Code-unit loop of the utf16Decoder transformer of
golang.org/x/text/encoding/unicode, after its byte-order-mark policy has been
applied.  Reads 2-byte units in the given byte order; a unit in the surrogate
range followed by a unit in 0xDC00..0xDFFF is combined (via surrPair) and
consumes four bytes; a surrogate followed by any other available unit, and a
surrogate with fewer than two more bytes available at EOF, produce U+FFFD and
consume two bytes; a single trailing byte at EOF produces U+FFFD; otherwise
ErrShortSrc is reported.  Returns (output, consumed, ErrShortSrc flag). -/
def utf16Loop (e : Endian) : List Nat → Bool → List Nat × Nat × Bool
  | [], _ => ([], 0, false)
  | [_], atEOF => if atEOF then (repl, 1, false) else ([], 0, true)
  | [b0, b1], atEOF =>
    let x := utf16Unit e b0 b1
    if 0xD800 ≤ x ∧ x ≤ 0xDFFF then
      if atEOF then (repl, 2, false) else ([], 0, true)
    else (utf8Enc x, 2, false)
  | [b0, b1, _r0], atEOF =>
    let x := utf16Unit e b0 b1
    if 0xD800 ≤ x ∧ x ≤ 0xDFFF then
      if atEOF then (repl ++ repl, 3, false) else ([], 0, true)
    else
      -- after consuming the unit, one byte remains: trailing U+FFFD at EOF,
      -- ErrShortSrc otherwise
      if atEOF then (utf8Enc x ++ repl, 3, false) else (utf8Enc x, 2, true)
  | b0 :: b1 :: r0 :: r1 :: rest2, atEOF =>
    let x := utf16Unit e b0 b1
    if 0xD800 ≤ x ∧ x ≤ 0xDFFF then
      let y := utf16Unit e r0 r1
      if 0xDC00 ≤ y ∧ y ≤ 0xDFFF then
        let r := utf16Loop e rest2 atEOF
        (utf8Enc (surrPair x y) ++ r.1, r.2.1 + 4, r.2.2)
      else
        let r := utf16Loop e (r0 :: r1 :: rest2) atEOF
        (repl ++ r.1, r.2.1 + 2, r.2.2)
    else
      let r := utf16Loop e (r0 :: r1 :: rest2) atEOF
      (utf8Enc x ++ r.1, r.2.1 + 2, r.2.2)

/-- Mutable state of a utf16Decoder transformer: its current endianness and
whether its byte-order-mark policy is still pending (the UseBOM policy; the
IgnoreBOM policy is an already-cleared flag). -/
structure U16St where
  endianness : Endian
  acceptBOM : Bool
deriving DecidableEq

/-- Model of the utf16Decoder transformer of golang.org/x/text/encoding/unicode.

On empty input it returns immediately.  While the UseBOM policy is pending it
needs at least two bytes (reporting ErrShortSrc otherwise, even at EOF);
a leading FE FF or FF FE unit switches the endianness and is consumed, and the
policy is cleared either way.  The remaining bytes go through utf16Loop. -/
def utf16T (st : U16St) (src : List Nat) (atEOF : Bool) :
    List Nat × Nat × Bool × U16St :=
  match src with
  | [] => ([], 0, false, st)
  | [_] =>
    if st.acceptBOM then ([], 0, true, st)
    else
      let r := utf16Loop st.endianness src atEOF
      (r.1, r.2.1, r.2.2, st)
  | s0 :: s1 :: _ =>
    if st.acceptBOM then
      let e :=
        if s0 = 0xFE ∧ s1 = 0xFF then Endian.be
        else if s0 = 0xFF ∧ s1 = 0xFE then Endian.le
        else st.endianness
      let n0 : Nat :=
        if (s0 = 0xFE ∧ s1 = 0xFF) ∨ (s0 = 0xFF ∧ s1 = 0xFE) then 2 else 0
      let r := utf16Loop e (src.drop n0) atEOF
      (r.1, r.2.1 + n0, r.2.2, ⟨e, false⟩)
    else
      let r := utf16Loop st.endianness src atEOF
      (r.1, r.2.1, r.2.2, st)

example : utf16T ⟨.le, false⟩ [0x48, 0x00, 0x69, 0x00] true =
    ([0x48, 0x69], 4, false, ⟨.le, false⟩) := by decide
example : utf16T ⟨.le, true⟩ [0xFF, 0xFE, 0x48, 0x00] true =
    ([0x48], 4, false, ⟨.le, false⟩) := by decide
example : utf16T ⟨.le, true⟩ [0xFE, 0xFF, 0x00, 0x48] true =
    ([0x48], 4, false, ⟨.be, false⟩) := by decide
example : utf16T ⟨.le, true⟩ [0x41] true = ([], 0, true, ⟨.le, true⟩) := by decide
example : utf16T ⟨.le, false⟩ [0x00, 0xD8, 0x00, 0xDC] true =
    (utf8Enc 0x10000, 4, false, ⟨.le, false⟩) := by decide

/-- The transformer a BOMOverride wrapper is currently delegating to: the
plain UTF-8 decoder, or a utf16Decoder with its state. -/
inductive Current
  | curUTF8
  | curUTF16 (st : U16St)
deriving DecidableEq

/-- Result of one Transform call: output bytes, source bytes consumed, and
whether transform.ErrShortSrc was reported (the only error that can arise
here, see the module conventions above). -/
structure TRes where
  out : List Nat
  nSrc : Nat
  shortSrc : Bool
deriving DecidableEq

/-- Run the transformer a BOMOverride wrapper delegates to. -/
def currentT (c : Current) (src : List Nat) (atEOF : Bool) : TRes × Current :=
  match c with
  | .curUTF8 =>
    let r := utf8T src atEOF
    (⟨r.1, r.2.1, r.2.2⟩, .curUTF8)
  | .curUTF16 st =>
    let r := utf16T st src atEOF
    (⟨r.1, r.2.1, r.2.2.1⟩, .curUTF16 r.2.2.2)

/-- The fallback transformer handed to unicode.BOMOverride by the code:
the UTF-8 decoder, or a utf16Decoder for the byte order selected by the
label, with the UseBOM policy (the code passes unicode.UseBOM whenever the
BOMOverride wrapper is used, since both are selected by ignoreBOM being
false). -/
inductive Fallback
  | fUTF8
  | fUTF16 (e : Endian)
deriving DecidableEq

/-- Initial state of the fallback transformer. -/
def Fallback.initial : Fallback → Current
  | .fUTF8 => .curUTF8
  | .fUTF16 e => .curUTF16 ⟨e, true⟩

/-- State of the transformer held by a TextDecoder between calls: either a
unicode.BOMOverride wrapper (with its fallback, and the transformer it
committed to once it has seen the start of the stream), or the bare decoder
transformer (used when ignoreBOM is true). -/
inductive Transformer
  | bom (fallback : Fallback) (current : Option Current)
  | plain (c : Current)
deriving DecidableEq

/-- Byte-order-mark detection of unicode.BOMOverride at commit time: with at
least three bytes available, a leading EF BB BF selects the plain UTF-8
decoder consuming three bytes, and a leading FE FF or FF FE a fresh
utf16Decoder of that byte order with the IgnoreBOM policy, consuming two;
otherwise the fallback is selected, consuming nothing. -/
def bomDetect (fb : Fallback) (src : List Nat) : Current × Nat :=
  if 3 ≤ src.length then
    if src.getD 0 0 = 0xEF ∧ src.getD 1 0 = 0xBB ∧ src.getD 2 0 = 0xBF then
      (.curUTF8, 3)
    else if src.getD 0 0 = 0xFE ∧ src.getD 1 0 = 0xFF then
      (.curUTF16 ⟨.be, false⟩, 2)
    else if src.getD 0 0 = 0xFF ∧ src.getD 1 0 = 0xFE then
      (.curUTF16 ⟨.le, false⟩, 2)
    else (fb.initial, 0)
  else (fb.initial, 0)

/-- Model of the Transform method of unicode.BOMOverride (and of the bare
decoder when no wrapper is used).

An uncommitted BOMOverride defers (ErrShortSrc) until it has at least three
bytes or atEOF holds; it then commits: with at least three bytes available, a
leading EF BB BF selects the plain UTF-8 decoder and consumes three bytes,
and a leading FE FF or FF FE selects a fresh utf16Decoder of that byte order
with the IgnoreBOM policy and consumes two bytes; otherwise it commits to its
fallback consuming nothing.  Any remaining bytes are passed to the committed
transformer. -/
def transformT (tr : Transformer) (src : List Nat) (atEOF : Bool) :
    TRes × Transformer :=
  match tr with
  | .plain c =>
    let r := currentT c src atEOF
    (r.1, .plain r.2)
  | .bom fb (some c) =>
    let r := currentT c src atEOF
    (r.1, .bom fb (some r.2))
  | .bom fb none =>
    if src.length < 3 ∧ atEOF = false then (⟨[], 0, true⟩, .bom fb none)
    else
      let cb : Current × Nat := bomDetect fb src
      if cb.2 < src.length then
        let r := currentT cb.1 (src.drop cb.2) atEOF
        (⟨r.1.out, r.1.nSrc + cb.2, r.1.shortSrc⟩, .bom fb (some r.2))
      else (⟨[], cb.2, false⟩, .bom fb (some cb.1))

example : transformT (.bom .fUTF8 none) [0x41] false = (⟨[], 0, true⟩, .bom .fUTF8 none) := by
  decide
example : transformT (.bom .fUTF8 none) [0xEF, 0xBB, 0xBF, 0x41] true =
    (⟨[0x41], 4, false⟩, .bom .fUTF8 (some .curUTF8)) := by decide
example : transformT (.bom (.fUTF16 .le) none) [0xFE, 0xFF, 0x41, 0x00] true =
    (⟨utf8Enc 0x4100, 4, false⟩, .bom (.fUTF16 .le) (some (.curUTF16 ⟨.be, false⟩))) := by
  decide

/-- The isValidUTF8ContinuationByte function of src/encoding/text_decoder.go:
checks that a byte has the continuation-byte shape and satisfies the
position-one range restrictions imposed by the lead byte of the buffered
incomplete sequence. -/
def isValidUTF8ContinuationByte (incompleteBuffer : List Nat) (position : Nat) (b : Nat) :
    Bool :=
  if ¬(0x80 ≤ b ∧ b < 0xC0) then false
  else if incompleteBuffer = [] then false
  else
    let firstByte := incompleteBuffer.getD 0 0
    if firstByte = 0xF0 ∧ position = 1 then decide (0x90 ≤ b ∧ b ≤ 0xBF)
    else if firstByte = 0xF4 ∧ position = 1 then decide (0x80 ≤ b ∧ b ≤ 0x8F)
    else if firstByte = 0xE0 ∧ position = 1 then decide (0xA0 ≤ b ∧ b ≤ 0xBF)
    else if firstByte = 0xED ∧ position = 1 then decide (0x80 ≤ b ∧ b ≤ 0x9F)
    else if (firstByte = 0xC0 ∨ firstByte = 0xC1) ∧ position = 1 then false
    else true

/-- The canCompleteUTF8Sequence function of src/encoding/text_decoder.go
(canCompleteUTF8SequenceImpl): decides whether the new bytes can complete, or
extend towards completion, the buffered incomplete sequence, judging the
expected length from the first buffered byte. -/
def canCompleteUTF8Sequence (incompleteBuffer newBytes : List Nat) : Bool :=
  if incompleteBuffer = [] ∨ newBytes = [] then false
  else
    let firstByte := incompleteBuffer.getD 0 0
    if firstByte < 0x80 then false
    else
      let expectedLength : Nat :=
        if 0xC0 ≤ firstByte ∧ firstByte < 0xE0 then 2
        else if 0xE0 ≤ firstByte ∧ firstByte < 0xF0 then 3
        else if 0xF0 ≤ firstByte ∧ firstByte < 0xF8 then 4
        else 0
      if expectedLength = 0 then false
      else
        let totalBytesNeeded := expectedLength - incompleteBuffer.length
        if newBytes.length < totalBytesNeeded then
          (List.range newBytes.length).all fun i =>
            isValidUTF8ContinuationByte incompleteBuffer (i + incompleteBuffer.length)
              (newBytes.getD i 0)
        else
          (List.range totalBytesNeeded).all fun i =>
            isValidUTF8ContinuationByte incompleteBuffer (i + incompleteBuffer.length)
              (newBytes.getD i 0)

example : canCompleteUTF8Sequence [0xF0, 0x9F] [0x8C, 0x9F] = true := by decide
example : canCompleteUTF8Sequence [0xF0, 0x9F] [0x41] = false := by decide
example : canCompleteUTF8Sequence [0x41, 0xF0, 0x9F, 0x8C] [0x9F] = false := by decide

/-- The detectInvalidUTF8Sequences function of src/encoding/text_decoder.go.
Splits a buffer into (invalid sequences, valid bytes, incomplete trailing
bytes): ASCII bytes and well-formed sequences (with the overlong and
surrogate exclusions of the source) are appended to the valid bytes; invalid
spans are collected in the invalid list; a truncated multi-byte sequence at
the end of the buffer is moved to the incomplete bytes and the scan stops.
Note that the source accepts any lead byte in 0xC0..0xDF for a two-byte
sequence (including the overlong leads 0xC0 and 0xC1) and any lead in
0xF0..0xF7, rejecting 0xF5 and above only after all three continuation
bytes are present. -/
def detectInvalidUTF8Sequences :
    List Nat → List (List Nat) × List Nat × List Nat
  | [] => ([], [], [])
  | b :: rest =>
    if b < 0x80 then
      let r := detectInvalidUTF8Sequences rest
      (r.1, b :: r.2.1, r.2.2)
    else if 0xC0 ≤ b ∧ b ≤ 0xDF then
      match rest with
      | [] => ([], [], [b])
      | c1 :: rest1 =>
        if ¬(0x80 ≤ c1 ∧ c1 < 0xC0) then
          let r := detectInvalidUTF8Sequences (c1 :: rest1)
          ([b] :: r.1, r.2.1, r.2.2)
        else
          let r := detectInvalidUTF8Sequences rest1
          (r.1, b :: c1 :: r.2.1, r.2.2)
    else if 0xE0 ≤ b ∧ b ≤ 0xEF then
      match rest with
      | [] => ([], [], [b])
      | c1 :: rest1 =>
        if ¬(0x80 ≤ c1 ∧ c1 < 0xC0) then
          let r := detectInvalidUTF8Sequences (c1 :: rest1)
          ([b] :: r.1, r.2.1, r.2.2)
        else
          match rest1 with
          | [] => ([], [], [b, c1])
          | c2 :: rest2 =>
            if ¬(0x80 ≤ c2 ∧ c2 < 0xC0) then
              let r := detectInvalidUTF8Sequences (c2 :: rest2)
              ([b, c1] :: r.1, r.2.1, r.2.2)
            else if (b = 0xE0 ∧ c1 < 0xA0) ∨ (b = 0xED ∧ 0xA0 ≤ c1) then
              let r := detectInvalidUTF8Sequences rest2
              ([b, c1, c2] :: r.1, r.2.1, r.2.2)
            else
              let r := detectInvalidUTF8Sequences rest2
              (r.1, b :: c1 :: c2 :: r.2.1, r.2.2)
    else if 0xF0 ≤ b ∧ b ≤ 0xF7 then
      match rest with
      | [] => ([], [], [b])
      | c1 :: rest1 =>
        if ¬(0x80 ≤ c1 ∧ c1 < 0xC0) then
          let r := detectInvalidUTF8Sequences (c1 :: rest1)
          ([b] :: r.1, r.2.1, r.2.2)
        else
          match rest1 with
          | [] => ([], [], [b, c1])
          | c2 :: rest2 =>
            if ¬(0x80 ≤ c2 ∧ c2 < 0xC0) then
              let r := detectInvalidUTF8Sequences (c2 :: rest2)
              ([b, c1] :: r.1, r.2.1, r.2.2)
            else
              match rest2 with
              | [] => ([], [], [b, c1, c2])
              | c3 :: rest3 =>
                if ¬(0x80 ≤ c3 ∧ c3 < 0xC0) then
                  let r := detectInvalidUTF8Sequences (c3 :: rest3)
                  ([b, c1, c2] :: r.1, r.2.1, r.2.2)
                else if (b = 0xF0 ∧ c1 < 0x90) ∨ (b = 0xF4 ∧ 0x90 ≤ c1) ∨ 0xF5 ≤ b then
                  let r := detectInvalidUTF8Sequences rest3
                  ([b, c1, c2, c3] :: r.1, r.2.1, r.2.2)
                else
                  let r := detectInvalidUTF8Sequences rest3
                  (r.1, b :: c1 :: c2 :: c3 :: r.2.1, r.2.2)
    else
      let r := detectInvalidUTF8Sequences rest
      ([b] :: r.1, r.2.1, r.2.2)

example : detectInvalidUTF8Sequences [0x41, 0xFF, 0x42] = ([[0xFF]], [0x41, 0x42], []) := by
  decide
example : detectInvalidUTF8Sequences [0x41, 0xF0, 0x9F, 0x8C] =
    ([], [0x41], [0xF0, 0x9F, 0x8C]) := by decide
example : detectInvalidUTF8Sequences [0xE0, 0x80, 0x41] = ([[0xE0, 0x80]], [0x41], []) := by
  decide

/-- Replacement-character count of the flush section of Decode
(src/encoding/text_decoder.go, UTF-8 branch of the non-streaming epilogue):
advances one byte at a time over the bytes the transformer left in the
buffer and counts one replacement for every non-ASCII byte. -/
def flushReplacementCount : List Nat → Nat
  | [] => 0
  | b :: rest =>
    if b < 0x80 then flushReplacementCount rest
    else if 0xC0 ≤ b ∧ b ≤ 0xDF then 1 + flushReplacementCount rest
    else if 0xE0 ≤ b ∧ b ≤ 0xEF then 1 + flushReplacementCount rest
    else if 0xF0 ≤ b ∧ b ≤ 0xF7 then 1 + flushReplacementCount rest
    else 1 + flushReplacementCount rest

/-- Rune iteration of a Go string given by its bytes, as performed by a Go
for-range loop (utf8.DecodeRuneInString semantics): well-formed sequences
decode to their code point, every ill-formed byte yields U+FFFD and advances
one byte. -/
def goRunes : List Nat → List Nat
  | [] => []
  | [b] => if b < 0x80 then [b] else [0xFFFD]
  | [b, c1] =>
    if b < 0x80 then b :: goRunes [c1]
    else if 0xC2 ≤ b ∧ b ≤ 0xDF then
      if acceptLo b ≤ c1 ∧ c1 ≤ acceptHi b then [(b - 0xC0) * 64 + (c1 - 0x80)]
      else 0xFFFD :: goRunes [c1]
    else 0xFFFD :: goRunes [c1]
  | [b, c1, c2] =>
    if b < 0x80 then b :: goRunes [c1, c2]
    else if 0xC2 ≤ b ∧ b ≤ 0xDF then
      if acceptLo b ≤ c1 ∧ c1 ≤ acceptHi b then
        ((b - 0xC0) * 64 + (c1 - 0x80)) :: goRunes [c2]
      else 0xFFFD :: goRunes [c1, c2]
    else if 0xE0 ≤ b ∧ b ≤ 0xEF then
      if (acceptLo b ≤ c1 ∧ c1 ≤ acceptHi b) ∧ (0x80 ≤ c2 ∧ c2 ≤ 0xBF) then
        [(b - 0xE0) * 4096 + (c1 - 0x80) * 64 + (c2 - 0x80)]
      else 0xFFFD :: goRunes [c1, c2]
    else 0xFFFD :: goRunes [c1, c2]
  | b :: c1 :: c2 :: c3 :: rest4 =>
    if b < 0x80 then b :: goRunes (c1 :: c2 :: c3 :: rest4)
    else if 0xC2 ≤ b ∧ b ≤ 0xDF then
      if acceptLo b ≤ c1 ∧ c1 ≤ acceptHi b then
        ((b - 0xC0) * 64 + (c1 - 0x80)) :: goRunes (c2 :: c3 :: rest4)
      else 0xFFFD :: goRunes (c1 :: c2 :: c3 :: rest4)
    else if 0xE0 ≤ b ∧ b ≤ 0xEF then
      if (acceptLo b ≤ c1 ∧ c1 ≤ acceptHi b) ∧ (0x80 ≤ c2 ∧ c2 ≤ 0xBF) then
        ((b - 0xE0) * 4096 + (c1 - 0x80) * 64 + (c2 - 0x80)) :: goRunes (c3 :: rest4)
      else 0xFFFD :: goRunes (c1 :: c2 :: c3 :: rest4)
    else if 0xF0 ≤ b ∧ b ≤ 0xF4 then
      if (acceptLo b ≤ c1 ∧ c1 ≤ acceptHi b) ∧ (0x80 ≤ c2 ∧ c2 ≤ 0xBF)
          ∧ (0x80 ≤ c3 ∧ c3 ≤ 0xBF) then
        ((b - 0xF0) * 0x40000 + (c1 - 0x80) * 4096 + (c2 - 0x80) * 64 + (c3 - 0x80)) ::
          goRunes rest4
      else 0xFFFD :: goRunes (c1 :: c2 :: c3 :: rest4)
    else 0xFFFD :: goRunes (c1 :: c2 :: c3 :: rest4)

/-- Whether ranging over the runes of the Go string with these bytes ever
yields U+FFFD; the check Decode performs on its output in fatal mode. -/
def goHasFFFD (bs : List Nat) : Bool := (goRunes bs).contains 0xFFFD

example : goHasFFFD [0xEF, 0xBF, 0xBD] = true := by decide
example : goHasFFFD [0x41, 0x42] = false := by decide
example : goRunes [0x41, 0xF0, 0x9F, 0x8C, 0x9F] = [0x41, 0x1F31F] := by decide

/-- Name of an error kind of src/encoding/error.go. -/
inductive ErrName
  | RangeError
  | TypeError
deriving DecidableEq

/-- An error returned by the embedded functions: either a plain Go error
(errors.New) or an Error value of src/encoding/error.go carrying an error
name and a message. -/
inductive GoErr
  | plain (msg : String)
  | enc (name : ErrName) (msg : String)
deriving DecidableEq

instance {ε α : Type} [DecidableEq ε] [DecidableEq α] : DecidableEq (Except ε α) :=
  fun a b =>
    match a, b with
    | .error e, .error f =>
      if h : e = f then .isTrue (congrArg _ h)
      else .isFalse (fun hh => h (Except.error.inj hh))
    | .ok x, .ok y =>
      if h : x = y then .isTrue (congrArg _ h)
      else .isFalse (fun hh => h (Except.ok.inj hh))
    | .error _, .ok _ => .isFalse Except.noConfusion
    | .ok _, .error _ => .isFalse Except.noConfusion

/-- The canonical encodings of src/encoding/text_decoder.go. -/
inductive EncodingName
  | utf8
  | utf16le
  | utf16be
deriving DecidableEq

/-- State of a TextDecoder of src/encoding/text_decoder.go.  The decoder and
transform fields of the Go struct are represented by hasDecoder (whether the
decoder field is non-nil) together with the encoding (which determines which
x/text decoder was stored), and by the transformer state. -/
structure TextDecoder where
  encoding : EncodingName
  fatal : Bool
  ignoreBOM : Bool
  hasDecoder : Bool
  transform : Option Transformer
  buffer : List Nat
deriving DecidableEq

/-- Code points of a Lean string literal, used to write Go string values. -/
def strCodes (s : String) : List Nat := s.data.map Char.toNat

/-- Go string built from a list of code points (for error messages). -/
def stringOfCodes (cs : List Nat) : String := String.mk (cs.map Char.ofNat)

/-- The Go unicode.ToLower function on one code point, exact on code points
below 0x100 (the domain the label theorems quantify over): ASCII capital
letters and the Latin-1 uppercase letters U+00C0..U+00D6 and U+00D8..U+00DE
move down by 0x20, the rest are unchanged.  Above 0xFF Go consults the full
Unicode case tables (mapping, for example, U+0130 to ASCII i), which are not
modelled: the identity here is an approximation, so theorems quantifying
over labels restrict their code points to below 0x100. -/
def goToLowerCode (c : Nat) : Nat :=
  if (65 ≤ c ∧ c ≤ 90) ∨ (0xC0 ≤ c ∧ c ≤ 0xD6) ∨ (0xD8 ≤ c ∧ c ≤ 0xDE) then c + 32 else c

/-- The Go unicode.IsSpace predicate (the Unicode White_Space property, the
set Go strings.TrimSpace trims): the five ASCII whitespace characters and
the space, U+0085 (NEL), U+00A0 (no-break space), U+1680 (ogham space mark),
U+2000..U+200A, U+2028, U+2029, U+202F, U+205F and U+3000.  Note that this
is Unicode whitespace, strictly larger than ASCII whitespace. -/
def goIsSpaceCode (c : Nat) : Bool :=
  c = 9 || c = 10 || c = 11 || c = 12 || c = 13 || c = 32 || c = 0x85 || c = 0xA0 ||
  c = 0x1680 || (0x2000 ≤ c && c ≤ 0x200A) || c = 0x2028 || c = 0x2029 || c = 0x202F ||
  c = 0x205F || c = 0x3000

/-- The Go strings.TrimSpace function: drop leading and trailing whitespace
(per goIsSpaceCode, on its modelled domain). -/
def goTrimSpace (cs : List Nat) : List Nat :=
  ((cs.dropWhile goIsSpaceCode).reverse.dropWhile goIsSpaceCode).reverse

/-- Label normalization performed by NewTextDecoder:
strings.TrimSpace(strings.ToLower(label)). -/
def normalizeLabel (cs : List Nat) : List Nat := goTrimSpace (cs.map goToLowerCode)

/-- Labels of the UTF-8 case of the switch in NewTextDecoder. -/
def labelsUTF8 : List (List Nat) :=
  [strCodes "", strCodes "unicode-1-1-utf-8", strCodes "unicode11utf8",
   strCodes "unicode20utf8", strCodes "utf-8", strCodes "utf8",
   strCodes "x-unicode20utf8"]

/-- Labels of the UTF-16LE case of the switch in NewTextDecoder. -/
def labelsUTF16LE : List (List Nat) :=
  [strCodes "csunicode", strCodes "iso-10646-ucs-2", strCodes "ucs-2",
   strCodes "unicode", strCodes "unicodefeff", strCodes "utf-16",
   strCodes "utf-16le"]

/-- Labels of the UTF-16BE case of the switch in NewTextDecoder. -/
def labelsUTF16BE : List (List Nat) := [strCodes "unicodefffe", strCodes "utf-16be"]

/-- The NewTextDecoder constructor of src/encoding/text_decoder.go (the label
is the list of code points of the Go string passed in; the sobek runtime
argument plays no role in the embedded behavior). -/
def NewTextDecoder (label : List Nat) (fatal ignoreBOM : Bool) :
    Except GoErr TextDecoder :=
  let norm := normalizeLabel label
  if norm ∈ labelsUTF8 then
    .ok { encoding := .utf8, fatal := fatal, ignoreBOM := ignoreBOM,
          hasDecoder := true, transform := none, buffer := [] }
  else if norm ∈ labelsUTF16LE then
    .ok { encoding := .utf16le, fatal := fatal, ignoreBOM := ignoreBOM,
          hasDecoder := true, transform := none, buffer := [] }
  else if norm ∈ labelsUTF16BE then
    .ok { encoding := .utf16be, fatal := fatal, ignoreBOM := ignoreBOM,
          hasDecoder := true, transform := none, buffer := [] }
  else .error (.enc .RangeError ("unsupported enc: " ++ stringOfCodes label))

/-- The transformer Decode builds on its first call: the decoder selected at
construction (per the encoding, with the UseBOM policy for the 16-bit
decoders since ignoreBOM is false exactly when that policy was chosen),
wrapped in unicode.BOMOverride unless ignoreBOM is true. -/
def newTransformer (td : TextDecoder) : Transformer :=
  match td.encoding, td.ignoreBOM with
  | .utf8, true => .plain .curUTF8
  | .utf8, false => .bom .fUTF8 none
  | .utf16le, true => .plain (.curUTF16 ⟨.le, false⟩)
  | .utf16le, false => .bom (.fUTF16 .le) none
  | .utf16be, true => .plain (.curUTF16 ⟨.be, false⟩)
  | .utf16be, false => .bom (.fUTF16 .be) none

/-- Epilogue shared by every non-error path of Decode: in the non-streaming
case, replacements for the bytes the transformer left in the buffer
(per-byte counting for UTF-8, one final transform at EOF plus at most one
replacement for the 16-bit decoders), reset of transformer and buffer; then
the fatal-mode scan of the decoded string for U+FFFD and the final return
value. -/
def decodeEpilogue (td : TextDecoder) (doNotFlush : Bool) (out2 buf4 : List Nat)
    (tr2 : Transformer) : (Except GoErr (List Nat)) × TextDecoder :=
  if doNotFlush = false then
    let out3 :=
      if buf4 ≠ [] then
        if td.encoding = .utf8 then
          out2 ++ List.flatten (List.replicate (flushReplacementCount buf4) repl)
        else
          let rc := transformT tr2 buf4 true
          let outA := out2 ++ rc.1.out
          if rc.1.shortSrc = true ∨ rc.1.out = [] then outA ++ repl else outA
      else out2
    let td1 : TextDecoder := { td with transform := none, buffer := [] }
    if td.fatal = true ∧ out3 ≠ [] ∧ goHasFFFD out3 = true then
      (.error (.enc .TypeError "invalid byte sequence"), td1)
    else (.ok out3, td1)
  else
    let td2 : TextDecoder := { td with transform := some tr2, buffer := buf4 }
    if td.fatal = true ∧ out2 ≠ [] ∧ goHasFFFD out2 = true then
      (.error (.enc .TypeError "invalid byte sequence"), td2)
    else (.ok out2, td2)

/-- The Decode method of src/encoding/text_decoder.go.  Takes the state of
the instance, the bytes of the call and the stream option; returns the
decoded Go string (as its bytes) or an error, together with the state of the
instance after the call.  The control flow mirrors the source:

  1. nil-decoder check;
  2. lazy creation of the transformer;
  3. append of the new bytes to the internal buffer;
  4. for UTF-8 in streaming mode, immediate detection of invalid sequences
     via detectInvalidUTF8Sequences (processing only the new bytes, after one
     replacement for the buffered bytes, when canCompleteUTF8Sequence says
     the buffered incomplete sequence cannot be completed);
  5. the replacement characters so detected, written before the transformer
     output;
  6. the Transform call (atEOF is the negation of the stream option), the
     incomplete sequences re-appended to the remaining buffer;
  7. the ErrShortSrc handling in streaming mode, including the retry of the
     transform with atEOF set when the buffer holds bytes but no separated
     incomplete sequences (the error value itself is dead after this block:
     the transformers here only ever produce ErrShortSrc, and the branch of
     the source that re-raises other errors in fatal mode is unreachable);
  8. the non-streaming epilogue (replacements for the bytes left in the
     buffer, reset of transformer and buffer);
  9. the fatal-mode scan of the decoded string for U+FFFD. -/
def TextDecoder.Decode (td : TextDecoder) (input : List Nat) (stream : Bool) :
    (Except GoErr (List Nat)) × TextDecoder :=
  if td.hasDecoder = false then (.error (.plain "encoding not set"), td)
  else
    let doNotFlush := stream
    let tr0 := td.transform.getD (newTransformer td)
    let prevIncompleteBytes := td.buffer
    let buf1 := td.buffer ++ input
    let det : Nat × List Nat × List Nat :=
      if td.encoding = .utf8 ∧ buf1 ≠ [] ∧ doNotFlush = true then
        if prevIncompleteBytes ≠ [] ∧ input ≠ [] ∧
            canCompleteUTF8Sequence prevIncompleteBytes input = false then
          -- the buffered incomplete sequence cannot be completed: one
          -- replacement for it, and only the new bytes are processed
          let d := detectInvalidUTF8Sequences input
          (1 + d.1.length, d.2.1, d.2.2)
        else
          let d := detectInvalidUTF8Sequences buf1
          (d.1.length, d.2.1, d.2.2)
      else (0, buf1, [])
    let replacementCount := det.1
    let buf2 := det.2.1
    let incompleteSequences := det.2.2
    let out0 := List.flatten (List.replicate replacementCount repl)
    let t1 := transformT tr0 buf2 (!doNotFlush)
    let srcPos := t1.1.nSrc
    let out1 := out0 ++ t1.1.out
    let buf3 :=
      if doNotFlush = true ∧ td.encoding = .utf8 ∧ incompleteSequences ≠ [] then
        buf2.drop srcPos ++ incompleteSequences
      else buf2.drop srcPos
    let step2 : List Nat × List Nat × Transformer :=
      if t1.1.shortSrc = true ∧ doNotFlush = true then
        if td.encoding = .utf16le ∨ td.encoding = .utf16be then
          -- incomplete 16-bit unit: keep the bytes buffered
          (out1, buf3, t1.2)
        else if incompleteSequences ≠ [] then
          -- deliberately separated incomplete sequences stay in the buffer
          (out1, buf3, t1.2)
        else if buf3 ≠ [] then
          -- retry with atEOF set to process complete characters
          let rc := transformT t1.2 buf3 true
          if rc.1.shortSrc = false ∨ 0 < rc.1.nSrc then
            (out1 ++ rc.1.out, buf3.drop rc.1.nSrc, rc.2)
          else (out1, buf3, rc.2)
        else (out1, buf3, t1.2)
      else (out1, buf3, t1.2)
    decodeEpilogue td doNotFlush step2.1 step2.2.1 step2.2.2

/-- State of a TextEncoder of src/encoding/text_encoder.go: whether its
encoder field is non-nil, and the encoding name it reports. -/
structure TextEncoder where
  encoding : EncodingName
  hasEncoder : Bool
deriving DecidableEq

/-- The Encode method of src/encoding/text_encoder.go.  The argument is the
sequence of code points of the Go string (for a string of Unicode scalar
values, the Go string bytes are exactly the concatenation of their UTF-8
encodings, and the x/text UTF-8 encoder — runes.ReplaceIllFormed — is the
identity on such well-formed input, so the successful result is that byte
sequence). -/
def TextEncoder.Encode (te : TextEncoder) (text : List Nat) :
    Except GoErr (List Nat) :=
  if te.hasEncoder = false then .error (.plain "encoding not set")
  else .ok (text.flatMap utf8Enc)

/-- UTF-8 bytes of a Go string given by its code points. -/
def goStrBytes (s : List Nat) : List Nat := s.flatMap utf8Enc

/-- A TextDecoder as produced by NewTextDecoder for the given encoding and
options. -/
def freshTD (e : EncodingName) (fatal ignoreBOM : Bool) : TextDecoder :=
  { encoding := e, fatal := fatal, ignoreBOM := ignoreBOM,
    hasDecoder := true, transform := none, buffer := [] }

/-- The zero value of the TextDecoder struct (not produced by the
constructor): its decoder field is nil.  The encoding field of the zero Go
struct is the empty string; it is never consulted on the nil-decoder path,
and utf8 stands in for it here. -/
def zeroTextDecoder : TextDecoder :=
  { encoding := .utf8, fatal := false, ignoreBOM := false,
    hasDecoder := false, transform := none, buffer := [] }

/-- The zero value of the TextEncoder struct: its encoder field is nil. -/
def zeroTextEncoder : TextEncoder := { encoding := .utf8, hasEncoder := false }

section SanityChecks

-- spec scenario 1: plain ASCII
example : (TextDecoder.Decode (freshTD .utf8 false false) (strCodes "Hello") false).1 =
    .ok (strCodes "Hello") := by decide

-- spec scenario 2: lone 0xC0
example : (TextDecoder.Decode (freshTD .utf8 false false) [0xC0] false).1 = .ok repl := by
  decide

-- spec scenario 5: fatal mode rejects 0xC0
example : (TextDecoder.Decode (freshTD .utf8 true false) [0xC0] false).1 =
    .error (.enc .TypeError "invalid byte sequence") := by decide

-- spec scenario 6: UTF-8 BOM stripped / kept
example : (TextDecoder.Decode (freshTD .utf8 false false)
    [0xEF, 0xBB, 0xBF, 0x48, 0x69] false).1 = .ok (strCodes "Hi") := by decide
example : (TextDecoder.Decode (freshTD .utf8 false true)
    [0xEF, 0xBB, 0xBF, 0x48, 0x69] false).1 = .ok ([0xEF, 0xBB, 0xBF] ++ strCodes "Hi") := by
  decide

-- spec scenario 3: streamed 4-byte sequence across two chunks
example :
    (TextDecoder.Decode (freshTD .utf8 false false) [0xF0, 0x9F] true).1 = .ok [] := by decide
example :
    (TextDecoder.Decode
      (TextDecoder.Decode (freshTD .utf8 false false) [0xF0, 0x9F] true).2
      [0x8C, 0x9F] true).1 = .ok (utf8Enc 0x1F31F) := by decide

-- repo debug test: [0xF0,0x9F] stream, then [0x41] stream gives one U+FFFD then A
example :
    (TextDecoder.Decode
      (TextDecoder.Decode (freshTD .utf8 false false) [0xF0, 0x9F] true).2
      [0x41] true).1 = .ok (repl ++ [0x41]) := by decide

-- C7: [0xF0,0x9F] stream, then [0x41] flush
example :
    (TextDecoder.Decode
      (TextDecoder.Decode (freshTD .utf8 false false) [0xF0, 0x9F] true).2
      [0x41] false).1 = .ok (repl ++ [0x41]) := by decide

-- C2: streaming groups replacements at the front
example : (TextDecoder.Decode (freshTD .utf8 false false) [0x41, 0xFF, 0x42] true).1 =
    .ok (repl ++ [0x41, 0x42]) := by decide
example : (TextDecoder.Decode (freshTD .utf8 false false) [0x41, 0xFF, 0x42] false).1 =
    .ok ([0x41] ++ repl ++ [0x42]) := by decide

-- C6: buffer grows to four bytes
example : (TextDecoder.Decode (freshTD .utf8 false false) [0x41, 0xF0, 0x9F, 0x8C] true).2.buffer
    = [0x41, 0xF0, 0x9F, 0x8C] := by decide
example :
    (TextDecoder.Decode (freshTD .utf8 false false) [0x41, 0x42, 0xF0, 0x9F, 0x8C] true).2.buffer
    = [0x41, 0x42, 0xF0, 0x9F, 0x8C] := by decide

-- C1: chunked vs whole
example :
    (TextDecoder.Decode
      (TextDecoder.Decode (freshTD .utf8 false false) [0x41, 0xF0, 0x9F, 0x8C] true).2
      [0x9F] true).1 = .ok (repl ++ repl) := by decide
example :
    (TextDecoder.Decode
      (TextDecoder.Decode
        (TextDecoder.Decode (freshTD .utf8 false false) [0x41, 0xF0, 0x9F, 0x8C] true).2
        [0x9F] true).2
      [0x42] false).1 = .ok [0x42] := by decide
example :
    (TextDecoder.Decode (freshTD .utf8 false false)
      [0x41, 0xF0, 0x9F, 0x8C, 0x9F, 0x42] false).1 =
    .ok [0x41, 0xF0, 0x9F, 0x8C, 0x9F, 0x42] := by decide

-- C3: literal U+FFFD rejected in fatal mode, accepted in non-fatal mode
example : (TextDecoder.Decode (freshTD .utf8 true false) [0xEF, 0xBF, 0xBD] false).1 =
    .error (.enc .TypeError "invalid byte sequence") := by decide
example : (TextDecoder.Decode (freshTD .utf8 false false) [0xEF, 0xBF, 0xBD] false).1 =
    .ok [0xEF, 0xBF, 0xBD] := by decide

-- C4: opposite-order BOM switches the byte order on a utf-16le decoder
example : (TextDecoder.Decode (freshTD .utf16le false false) [0xFE, 0xFF, 0x41, 0x00] false).1 =
    .ok (utf8Enc 0x4100) := by decide
example : (TextDecoder.Decode (freshTD .utf16le false false) [0xFF, 0xFE, 0x41, 0x00] false).1 =
    .ok [0x41] := by decide

-- C8: encoding then decoding a string that starts with U+FEFF loses it
example : (TextDecoder.Decode (freshTD .utf8 false false) (goStrBytes [0xFEFF]) false).1 =
    .ok [] := by decide

-- UTF-16 misc: lone byte flush
example : (TextDecoder.Decode (freshTD .utf16le false false) [0x41] false).1 = .ok repl := by
  decide
example : (TextDecoder.Decode (freshTD .utf16le false true) [0x41] false).1 = .ok repl := by
  decide

-- repo debug test: flush, then an incomplete 2-byte lead streamed, then flush
-- yields one replacement character
example :
    (let r1 := TextDecoder.Decode (freshTD .utf8 false false) [] false
     let r2 := r1.2.Decode [0xC9] true
     let r3 := r2.2.Decode [] false
     r1.1 = .ok [] ∧ r2.1 = .ok [] ∧ r3.1 = .ok repl) := by decide

end SanityChecks

/-- All labels accepted by NewTextDecoder. -/
def allLabels : List (List Nat) := labelsUTF8 ++ labelsUTF16LE ++ labelsUTF16BE

/-- ASCII whitespace (the whitespace characters of the ASCII range),
written after the words of the specification claim that label
normalization trims ASCII whitespace. -/
def asciiIsSpaceCode (c : Nat) : Bool :=
  c = 9 || c = 10 || c = 11 || c = 12 || c = 13 || c = 32

/-- Label normalization as the specification claim words it: trim ASCII
whitespace and lower-case. -/
def asciiNormalizeLabel (cs : List Nat) : List Nat :=
  (((cs.dropWhile asciiIsSpaceCode).reverse.dropWhile asciiIsSpaceCode).reverse).map
    goToLowerCode

/-- Decoding of a full byte sequence by the x/text utf16Decoder in the given
byte order with no pending byte-order-mark policy, used to state what a
UTF-16 decoder does to the bytes following a byte order mark. -/
def utf16DecodeAll (e : Endian) (bs : List Nat) : List Nat := (utf16Loop e bs true).1

/-- C1.  The claim states chunk-invariance: streaming-decoding the chunks of
any split of a valid, complete byte sequence (stream true on all but the
last call) and concatenating equals decoding the whole sequence at once.
The code violates it: the valid UTF-8 sequence for the string made of
A, U+1F31F and B, split as [41 F0 9F 8C] / [9F] / [42], streams to two
replacement characters followed by B, while the whole sequence decodes to
the original string.  (First call: the transformer defers with fewer than
three bytes, so the buffer keeps the valid byte 41 in front of the
incomplete tail; second call: canCompleteUTF8Sequence sees the ASCII first
byte 41 and declares the buffered bytes uncompletable, so they are replaced
wholesale and the continuation byte 9F is judged invalid on its own.) -/
theorem C1_chunk_invariance_fails :
    (let st0 := freshTD .utf8 false false
     let r1 := st0.Decode [0x41, 0xF0, 0x9F, 0x8C] true
     let r2 := r1.2.Decode [0x9F] true
     let r3 := r2.2.Decode [0x42] false
     r1.1 = .ok [] ∧ r2.1 = .ok (repl ++ repl) ∧ r3.1 = .ok [0x42])
    ∧ ((freshTD .utf8 false false).Decode [0x41, 0xF0, 0x9F, 0x8C, 0x9F, 0x42] false).1 =
        .ok [0x41, 0xF0, 0x9F, 0x8C, 0x9F, 0x42]
    ∧ ([] ++ (repl ++ repl) ++ [0x42] : List Nat) ≠ [0x41, 0xF0, 0x9F, 0x8C, 0x9F, 0x42] := by
  decide

/-- C2, counterexample.  The claim states that each invalid span contributes
its replacement character at the position where the span occurs relative to
the validly decoded characters, giving A, U+FFFD, B for the bytes
41 FF 42 and never grouping the replacements at the front.  In a streaming
call the code does group them at the front: decoding 41 FF 42 with stream
true on a fresh default decoder yields U+FFFD, A, B. -/
theorem C2_counterexample :
    ((freshTD .utf8 false false).Decode [0x41, 0xFF, 0x42] true).1 =
      .ok (repl ++ [0x41, 0x42])
    ∧ (repl ++ [0x41, 0x42] : List Nat) ≠ [0x41] ++ repl ++ [0x42] := by decide

/-- C3.  The claim states that non-fatal decoding produces a replacement
character exactly when fatal decoding raises TypeError, and in particular
that a valid encoding of the literal code point U+FFFD must be accepted in
fatal mode.  The code instead scans its decoded output for U+FFFD, so the
valid byte sequence EF BF BD — which non-fatal mode decodes, without any
substitution, to the one-character string U+FFFD — raises TypeError in
fatal mode, breaking the claimed equivalence. -/
theorem C3_fatal_rejects_literal_replacement :
    ((freshTD .utf8 false false).Decode [0xEF, 0xBF, 0xBD] false).1 = .ok repl
    ∧ ((freshTD .utf8 true false).Decode [0xEF, 0xBF, 0xBD] false).1 =
        .error (.enc .TypeError "invalid byte sequence") := by decide

/-- C4, counterexample.  The claim states that for a utf-16le decoder with
ignoreBOM false, a leading byte order mark is consumed and the byte order
stays the one selected by the label.  But the BOMOverride wrapper switches
to the byte order named by the mark: on a utf-16le decoder, FE FF 41 00
decodes to the single code point 0x4100 (big-endian reading of 41 00)
rather than to A (little-endian reading). -/
theorem C4_counterexample :
    ((freshTD .utf16le false false).Decode [0xFE, 0xFF, 0x41, 0x00] false).1 =
      .ok (utf8Enc 0x4100)
    ∧ utf8Enc 0x4100 ≠ [0x41] := by decide

/-- C6.  The claim (and the specification invariant it quotes) states that
between any two Decode calls the pending buffer holds at most three bytes.
After a single streaming call with bytes 41 F0 9F 8C on a fresh default
UTF-8 decoder the buffer holds those four bytes: the BOMOverride transformer
defers while it has seen fewer than three bytes, so the valid byte 41 stays
unconsumed and is kept in front of the three-byte incomplete tail. -/
theorem C6_buffer_exceeds_three :
    ((freshTD .utf8 false false).Decode [0x41, 0xF0, 0x9F, 0x8C] true).2.buffer =
      [0x41, 0xF0, 0x9F, 0x8C]
    ∧ ¬((freshTD .utf8 false false).Decode [0x41, 0xF0, 0x9F, 0x8C] true).2.buffer.length ≤ 3 := by
  decide

/-- C7.  On a fresh UTF-8 decoder in non-fatal mode, decoding F0 9F with
stream true returns the empty string and buffers the incomplete lead; the
following decode of 41 with stream false returns exactly U+FFFD followed by
A: the buffered incomplete span is replaced by a single U+FFFD at flush. -/
theorem C7_incomplete_then_flush :
    (let st0 := freshTD .utf8 false false
     let r1 := st0.Decode [0xF0, 0x9F] true
     let r2 := r1.2.Decode [0x41] false
     r1.1 = .ok [] ∧ r2.1 = .ok (repl ++ [0x41])) := by decide

/-- A TextEncoder as produced by the constructor (its encoder field set,
emitting UTF-8). -/
def freshTextEncoder : TextEncoder := { encoding := .utf8, hasEncoder := true }

/-- C8, counterexample.  The claim states that decoding the encoder output
of any string of code points representable without loss returns exactly that
string.  The one-character string U+FEFF (no lone surrogate) encodes to
EF BB BF, which the default UTF-8 decoder strips as a byte order mark,
returning the empty string instead of the original string. -/
theorem C8_counterexample :
    freshTextEncoder.Encode [0xFEFF] = .ok [0xEF, 0xBB, 0xBF]
    ∧ ((freshTD .utf8 false false).Decode [0xEF, 0xBB, 0xBF] false).1 = .ok []
    ∧ ([] : List Nat) ≠ goStrBytes [0xFEFF] := by decide

/-- C9, counterexample.  The claim states that construction fails exactly
when the label, after trimming ASCII whitespace and lower-casing, is not in
the alias table.  The label made of U+00A0 followed by utf-8 is unchanged by
ASCII trimming and is not in the table, yet construction succeeds, because
the code trims Unicode whitespace (strings.TrimSpace), which includes the
no-break space U+00A0. -/
theorem C9_counterexample :
    NewTextDecoder (0xA0 :: strCodes "utf-8") false false = .ok (freshTD .utf8 false false)
    ∧ asciiNormalizeLabel (0xA0 :: strCodes "utf-8") ∉ allLabels := by decide

/-- C10.  Calling Decode on a zero-value TextDecoder (one whose decoder
field is nil) returns the plain error with message encoding not set — not a
RangeError- or TypeError-kind Error value — and leaves the state unchanged;
Encode on a zero-value TextEncoder likewise returns the plain encoding not
set error.  Both functions are total, so neither call can panic. -/
theorem C10_zero_value_plain_errors :
    ∀ (input : List Nat) (stream : Bool) (text : List Nat),
      zeroTextDecoder.Decode input stream =
        (.error (.plain "encoding not set"), zeroTextDecoder)
      ∧ zeroTextEncoder.Encode text = .error (.plain "encoding not set") := by
  intro input stream text
  exact ⟨rfl, rfl⟩

/-- C5.  After any Decode call with the stream option false, on any decoder
state whose decoder is set, the pending-byte buffer is empty and the
transformer is discarded, so the instance is back in its just-constructed
shape (the construction-time fields are never written by Decode). -/
theorem decodeEpilogue_reset (td : TextDecoder) (out2 buf4 : List Nat) (tr2 : Transformer) :
    (decodeEpilogue td false out2 buf4 tr2).2.buffer = []
    ∧ (decodeEpilogue td false out2 buf4 tr2).2.transform = none := by
  unfold decodeEpilogue
  rw [if_pos rfl]
  constructor <;> rw [apply_ite Prod.snd, ite_self]

theorem C5_flush_resets :
    ∀ (td : TextDecoder) (input : List Nat), td.hasDecoder = true →
      (td.Decode input false).2.buffer = [] ∧ (td.Decode input false).2.transform = none := by
  intro td input h
  have hh : ¬ (td.hasDecoder = false) := by simp [h]
  rw [TextDecoder.Decode, if_neg hh]
  exact decodeEpilogue_reset td _ _ _

/-- Witness for C5: a concrete flush call on a fresh decoder ends with an
empty buffer and no transformer. -/
theorem C5_flush_resets_witness :
    (freshTD .utf8 false false).hasDecoder = true
    ∧ ((freshTD .utf8 false false).Decode [0x41, 0xF0] false).2.buffer = []
    ∧ ((freshTD .utf8 false false).Decode [0x41, 0xF0] false).2.transform = none :=
  ⟨rfl, C5_flush_resets (freshTD .utf8 false false) [0x41, 0xF0] rfl⟩

theorem decodeEpilogue_error (td : TextDecoder) (doNotFlush : Bool)
    (out2 buf4 : List Nat) (tr2 : Transformer) :
    ∀ e, (decodeEpilogue td doNotFlush out2 buf4 tr2).1 = .error e →
      e = .enc .TypeError "invalid byte sequence" := by
  intro e h
  simp only [decodeEpilogue] at h
  repeat' split at h
  all_goals simp_all

theorem decode_error_shape (td : TextDecoder) (input : List Nat) (st : Bool) :
    ∀ e, (td.Decode input st).1 = .error e →
      e = .plain "encoding not set" ∨ e = .enc .TypeError "invalid byte sequence" := by
  intro e h
  by_cases hd : td.hasDecoder = false
  · rw [TextDecoder.Decode, if_pos hd] at h
    exact .inl (Except.error.inj h).symm
  · rw [TextDecoder.Decode, if_neg hd] at h
    exact .inr (decodeEpilogue_error _ _ _ _ _ e h)

/-- C9, amended.  For every label whose code points lie below 0x100 (the
domain on which the Go string functions are modelled exactly; above it Go
lower-casing consults the full Unicode case tables, which can map a label
into the alias table): construction fails exactly when the label — after Go
lower-casing and trimming of Go Unicode whitespace (strings.TrimSpace,
which also removes, for example, the no-break space U+00A0, so strictly
more than ASCII whitespace) — is not in the fixed alias table; on failure
the error is RangeError-kind and carries the offending label, and no
decoder is produced (the result is an error, not an instance); the empty
label succeeds and selects UTF-8; and Decode never returns a
RangeError-kind error, so construction is the only source of RangeError. -/
theorem C9_amended :
    ∀ (label : List Nat) (f i : Bool), (∀ c ∈ label, c < 0x100) →
      ((∃ e, NewTextDecoder label f i = .error e) ↔ normalizeLabel label ∉ allLabels)
      ∧ (∀ e, NewTextDecoder label f i = .error e →
          e = .enc .RangeError ("unsupported enc: " ++ stringOfCodes label))
      ∧ NewTextDecoder [] f i = .ok (freshTD .utf8 f i)
      ∧ (∀ (td : TextDecoder) (input : List Nat) (st : Bool) (msg : String),
          (td.Decode input st).1 ≠ .error (.enc .RangeError msg)) := by
  intro label f i _
  refine ⟨?_, ?_, rfl, ?_⟩
  · by_cases h1 : normalizeLabel label ∈ labelsUTF8
    · simp [NewTextDecoder, h1, allLabels]
    · by_cases h2 : normalizeLabel label ∈ labelsUTF16LE
      · simp [NewTextDecoder, h1, h2, allLabels]
      · by_cases h3 : normalizeLabel label ∈ labelsUTF16BE
        · simp [NewTextDecoder, h1, h2, h3, allLabels]
        · simp [NewTextDecoder, h1, h2, h3, allLabels]
  · intro e he
    by_cases h1 : normalizeLabel label ∈ labelsUTF8
    · simp [NewTextDecoder, h1] at he
    · by_cases h2 : normalizeLabel label ∈ labelsUTF16LE
      · simp [NewTextDecoder, h1, h2] at he
      · by_cases h3 : normalizeLabel label ∈ labelsUTF16BE
        · simp [NewTextDecoder, h1, h2, h3] at he
        · simp [NewTextDecoder, h1, h2, h3] at he
          exact he.symm
  · intro td input st msg h
    rcases decode_error_shape td input st _ h with h' | h' <;> simp at h'

/-- Witness for C9: the label no-break-space, U-T-F-hyphen-1-6-B-E (Unicode
whitespace and capital letters, all code points below 0x100) satisfies the
hypothesis, and the amended statement holds at it. -/
theorem C9_amended_witness :
    (∀ c ∈ (0xA0 :: strCodes "UTF-16BE"), c < 0x100)
    ∧ (((∃ e, NewTextDecoder (0xA0 :: strCodes "UTF-16BE") false false = .error e) ↔
          normalizeLabel (0xA0 :: strCodes "UTF-16BE") ∉ allLabels)
       ∧ (∀ e, NewTextDecoder (0xA0 :: strCodes "UTF-16BE") false false = .error e →
           e = .enc .RangeError ("unsupported enc: " ++
             stringOfCodes (0xA0 :: strCodes "UTF-16BE")))
       ∧ NewTextDecoder [] false false = .ok (freshTD .utf8 false false)
       ∧ (∀ (td : TextDecoder) (input : List Nat) (st : Bool) (msg : String),
           (td.Decode input st).1 ≠ .error (.enc .RangeError msg))) :=
  ⟨by decide, C9_amended (0xA0 :: strCodes "UTF-16BE") false false (by decide)⟩

theorem utf16Loop_eof (e : Endian) : ∀ (src : List Nat),
    (utf16Loop e src true).2.1 = src.length ∧ (utf16Loop e src true).2.2 = false
  | [] => ⟨rfl, rfl⟩
  | [_] => by simp [utf16Loop]
  | [_, _] => by
    simp only [utf16Loop]
    split <;> simp
  | [_, _, _] => by
    simp only [utf16Loop]
    split <;> simp
  | b0 :: b1 :: r0 :: r1 :: rest2 => by
    have ih1 := utf16Loop_eof e rest2
    have ih2 := utf16Loop_eof e (r0 :: r1 :: rest2)
    simp only [utf16Loop]
    split
    · split
      · exact ⟨by simp [ih1.1], ih1.2⟩
      · exact ⟨by simp [ih2.1], ih2.2⟩
    · exact ⟨by simp [ih2.1], ih2.2⟩

theorem utf16T_noBOM (e : Endian) (src : List Nat) (atEOF : Bool) :
    utf16T ⟨e, false⟩ src atEOF =
      ((utf16Loop e src atEOF).1, (utf16Loop e src atEOF).2.1,
       (utf16Loop e src atEOF).2.2, ⟨e, false⟩) := by
  rcases src with _ | ⟨b, _ | ⟨c, t⟩⟩ <;> rfl

theorem decodeEpilogue_flush_ok (td : TextDecoder) (h : td.fatal = false)
    (out : List Nat) (tr : Transformer) :
    decodeEpilogue td false out [] tr =
      (.ok out, { td with transform := none, buffer := [] }) := by
  simp [decodeEpilogue, h]

theorem transformT_bom16 (fb : Fallback) (s0 s1 : Nat) (hs0 : s0 = 0xFE ∧ s1 = 0xFF ∨ s0 = 0xFF ∧ s1 = 0xFE)
    (x : Nat) (r2 : List Nat) (atEOF : Bool) :
    transformT (.bom fb none) (s0 :: s1 :: x :: r2) atEOF =
      (⟨(utf16Loop (if s0 = 0xFE then .be else .le) (x :: r2) atEOF).1,
        (utf16Loop (if s0 = 0xFE then .be else .le) (x :: r2) atEOF).2.1 + 2,
        (utf16Loop (if s0 = 0xFE then .be else .le) (x :: r2) atEOF).2.2⟩,
       .bom fb (some (.curUTF16 ⟨if s0 = 0xFE then .be else .le, false⟩))) := by
  rcases hs0 with ⟨h0, h1⟩ | ⟨h0, h1⟩ <;> subst h0 <;> subst h1 <;>
    simp [transformT, bomDetect, List.length_cons, currentT, utf16T_noBOM]

/-- The UTF-16 encoding name selected by a UTF-16 label, indexed by the
byte order the label names (utf-16le and the other little-endian aliases,
or utf-16be and unicodefffe). -/
def enc16 : Endian → EncodingName
  | .le => .utf16le
  | .be => .utf16be

/-- C4, amended.  For a decoder constructed with any UTF-16 label (either
byte order) and ignoreBOM false, a leading byte order mark is consumed and
discarded without emitting a character, but it selects the byte order for
the rest of the stream regardless of the label: after a leading FE FF the
remaining bytes are decoded big-endian, and after a leading FF FE
little-endian (the encoding reported by the instance, part of its returned
state, stays the one selected by the label). -/
theorem C4_amended :
    ∀ (lab : Endian) (rest : List Nat),
      (freshTD (enc16 lab) false false).Decode (0xFE :: 0xFF :: rest) false =
        (.ok (utf16DecodeAll .be rest), freshTD (enc16 lab) false false)
      ∧ (freshTD (enc16 lab) false false).Decode (0xFF :: 0xFE :: rest) false =
        (.ok (utf16DecodeAll .le rest), freshTD (enc16 lab) false false) := by
  intro lab rest
  rcases lab with _ | _
  · -- little-endian label (utf-16le and friends)
    rcases rest with _ | ⟨x, r2⟩
    · exact ⟨by decide, by decide⟩
    constructor
    · have hdrop : (0xFE :: 0xFF :: x :: r2 : List Nat).drop ((x :: r2).length + 2) = [] := by
        rw [show (x :: r2 : List Nat).length + 2 = (0xFE :: 0xFF :: x :: r2 : List Nat).length by
              simp]
        exact List.drop_length _
      rw [TextDecoder.Decode, if_neg (by decide)]
      simp [freshTD, enc16, newTransformer, utf16DecodeAll,
        transformT_bom16 (Fallback.fUTF16 .le) 0xFE 0xFF (Or.inl ⟨rfl, rfl⟩) x r2 true,
        (utf16Loop_eof .be (x :: r2)).1, (utf16Loop_eof .be (x :: r2)).2, hdrop,
        decodeEpilogue_flush_ok]
    · have hdrop : (0xFF :: 0xFE :: x :: r2 : List Nat).drop ((x :: r2).length + 2) = [] := by
        rw [show (x :: r2 : List Nat).length + 2 = (0xFF :: 0xFE :: x :: r2 : List Nat).length by
              simp]
        exact List.drop_length _
      rw [TextDecoder.Decode, if_neg (by decide)]
      simp [freshTD, enc16, newTransformer, utf16DecodeAll,
        transformT_bom16 (Fallback.fUTF16 .le) 0xFF 0xFE (Or.inr ⟨rfl, rfl⟩) x r2 true,
        (utf16Loop_eof .le (x :: r2)).1, (utf16Loop_eof .le (x :: r2)).2, hdrop,
        decodeEpilogue_flush_ok]
  · -- big-endian label (utf-16be, unicodefffe)
    rcases rest with _ | ⟨x, r2⟩
    · exact ⟨by decide, by decide⟩
    constructor
    · have hdrop : (0xFE :: 0xFF :: x :: r2 : List Nat).drop ((x :: r2).length + 2) = [] := by
        rw [show (x :: r2 : List Nat).length + 2 = (0xFE :: 0xFF :: x :: r2 : List Nat).length by
              simp]
        exact List.drop_length _
      rw [TextDecoder.Decode, if_neg (by decide)]
      simp [freshTD, enc16, newTransformer, utf16DecodeAll,
        transformT_bom16 (Fallback.fUTF16 .be) 0xFE 0xFF (Or.inl ⟨rfl, rfl⟩) x r2 true,
        (utf16Loop_eof .be (x :: r2)).1, (utf16Loop_eof .be (x :: r2)).2, hdrop,
        decodeEpilogue_flush_ok]
    · have hdrop : (0xFF :: 0xFE :: x :: r2 : List Nat).drop ((x :: r2).length + 2) = [] := by
        rw [show (x :: r2 : List Nat).length + 2 = (0xFF :: 0xFE :: x :: r2 : List Nat).length by
              simp]
        exact List.drop_length _
      rw [TextDecoder.Decode, if_neg (by decide)]
      simp [freshTD, enc16, newTransformer, utf16DecodeAll,
        transformT_bom16 (Fallback.fUTF16 .be) 0xFF 0xFE (Or.inr ⟨rfl, rfl⟩) x r2 true,
        (utf16Loop_eof .le (x :: r2)).1, (utf16Loop_eof .le (x :: r2)).2, hdrop,
        decodeEpilogue_flush_ok]

/-- A Unicode scalar value: a code point that is not a surrogate and is in
range. -/
def UScalar (c : Nat) : Prop := c < 0xD800 ∨ (0xE000 ≤ c ∧ c ≤ 0x10FFFF)

theorem utf8T_cons_ascii (b : Nat) (hb : b < 0x80) (tail : List Nat) (atEOF : Bool) :
    utf8T (b :: tail) atEOF =
      (b :: (utf8T tail atEOF).1, (utf8T tail atEOF).2.1 + 1, (utf8T tail atEOF).2.2) := by
  rcases tail with _ | ⟨t1, _ | ⟨t2, _ | ⟨t3, ts⟩⟩⟩ <;> simp [utf8T, hb]

theorem utf8T_cons2 (b c1 : Nat) (hb : 0xC2 ≤ b ∧ b ≤ 0xDF)
    (hc1 : acceptLo b ≤ c1 ∧ c1 ≤ acceptHi b) (tail : List Nat) (atEOF : Bool) :
    utf8T (b :: c1 :: tail) atEOF =
      (b :: c1 :: (utf8T tail atEOF).1, (utf8T tail atEOF).2.1 + 2,
       (utf8T tail atEOF).2.2) := by
  rcases tail with _ | ⟨t1, _ | ⟨t2, ts⟩⟩ <;>
    simp [utf8T, show ¬ b < 0x80 by omega, hb, hc1]

theorem utf8T_cons3 (b c1 c2 : Nat) (hb : 0xE0 ≤ b ∧ b ≤ 0xEF)
    (hc1 : acceptLo b ≤ c1 ∧ c1 ≤ acceptHi b) (hc2 : 0x80 ≤ c2 ∧ c2 ≤ 0xBF)
    (tail : List Nat) (atEOF : Bool) :
    utf8T (b :: c1 :: c2 :: tail) atEOF =
      (b :: c1 :: c2 :: (utf8T tail atEOF).1, (utf8T tail atEOF).2.1 + 3,
       (utf8T tail atEOF).2.2) := by
  rcases tail with _ | ⟨t1, ts⟩ <;>
    simp [utf8T, show ¬ b < 0x80 by omega, show ¬ (0xC2 ≤ b ∧ b ≤ 0xDF) by omega, hb,
      hc1, hc2]

theorem utf8T_cons4 (b c1 c2 c3 : Nat) (hb : 0xF0 ≤ b ∧ b ≤ 0xF4)
    (hc1 : acceptLo b ≤ c1 ∧ c1 ≤ acceptHi b) (hc2 : 0x80 ≤ c2 ∧ c2 ≤ 0xBF)
    (hc3 : 0x80 ≤ c3 ∧ c3 ≤ 0xBF) (tail : List Nat) (atEOF : Bool) :
    utf8T (b :: c1 :: c2 :: c3 :: tail) atEOF =
      (b :: c1 :: c2 :: c3 :: (utf8T tail atEOF).1, (utf8T tail atEOF).2.1 + 4,
       (utf8T tail atEOF).2.2) := by
  simp [utf8T, show ¬ b < 0x80 by omega, show ¬ (0xC2 ≤ b ∧ b ≤ 0xDF) by omega,
    show ¬ (0xE0 ≤ b ∧ b ≤ 0xEF) by omega, hb, hc1, hc2, hc3]

theorem utf8T_enc (c : Nat) (h : UScalar c) (tail : List Nat) (atEOF : Bool) :
    utf8T (utf8Enc c ++ tail) atEOF =
      (utf8Enc c ++ (utf8T tail atEOF).1, (utf8T tail atEOF).2.1 + (utf8Enc c).length,
       (utf8T tail atEOF).2.2) := by
  by_cases h1 : c < 0x80
  · have he : utf8Enc c = [c] := by rw [utf8Enc, if_pos h1]
    rw [he]
    rw [List.cons_append, List.nil_append, utf8T_cons_ascii c h1 tail atEOF]
    simp
  by_cases h2 : c < 0x800
  · have he : utf8Enc c = [0xC0 + c / 64, 0x80 + c % 64] := by
      rw [utf8Enc, if_neg h1, if_pos h2]
    have hb : 0xC2 ≤ 0xC0 + c / 64 ∧ 0xC0 + c / 64 ≤ 0xDF := by omega
    have hlo : acceptLo (0xC0 + c / 64) = 0x80 := by
      rw [acceptLo, if_neg (by omega), if_neg (by omega)]
    have hhi : acceptHi (0xC0 + c / 64) = 0xBF := by
      rw [acceptHi, if_neg (by omega), if_neg (by omega)]
    have hc1 : acceptLo (0xC0 + c / 64) ≤ 0x80 + c % 64
        ∧ 0x80 + c % 64 ≤ acceptHi (0xC0 + c / 64) := by
      rw [hlo, hhi]; omega
    rw [he]
    rw [show ([0xC0 + c / 64, 0x80 + c % 64] : List Nat) ++ tail =
          (0xC0 + c / 64) :: (0x80 + c % 64) :: tail from rfl,
        utf8T_cons2 _ _ hb hc1 tail atEOF]
    simp
  by_cases h3 : c < 0x10000
  · have hs : ¬(0xD800 ≤ c ∧ c ≤ 0xDFFF) := by rcases h with h | h <;> omega
    have he : utf8Enc c = [0xE0 + c / 4096, 0x80 + c / 64 % 64, 0x80 + c % 64] := by
      rw [utf8Enc, if_neg h1, if_neg h2, if_neg hs, if_pos h3]
    have hb : 0xE0 ≤ 0xE0 + c / 4096 ∧ 0xE0 + c / 4096 ≤ 0xEF := by omega
    have hc1 : acceptLo (0xE0 + c / 4096) ≤ 0x80 + c / 64 % 64
        ∧ 0x80 + c / 64 % 64 ≤ acceptHi (0xE0 + c / 4096) := by
      constructor
      · rw [acceptLo]
        split
        · omega
        split
        · omega
        · omega
      · rw [acceptHi]
        split
        · omega
        split
        · omega
        · omega
    have hc2 : 0x80 ≤ 0x80 + c % 64 ∧ 0x80 + c % 64 ≤ 0xBF := by omega
    rw [he]
    rw [show ([0xE0 + c / 4096, 0x80 + c / 64 % 64, 0x80 + c % 64] : List Nat) ++ tail =
          (0xE0 + c / 4096) :: (0x80 + c / 64 % 64) :: (0x80 + c % 64) :: tail from rfl,
        utf8T_cons3 _ _ _ hb hc1 hc2 tail atEOF]
    simp
  · have h4 : c ≤ 0x10FFFF := by rcases h with h | h <;> omega
    have hs : ¬(0xD800 ≤ c ∧ c ≤ 0xDFFF) := by omega
    have he : utf8Enc c =
        [0xF0 + c / 0x40000, 0x80 + c / 4096 % 64, 0x80 + c / 64 % 64, 0x80 + c % 64] := by
      rw [utf8Enc, if_neg h1, if_neg h2, if_neg hs, if_neg h3, if_pos h4]
    have hb : 0xF0 ≤ 0xF0 + c / 0x40000 ∧ 0xF0 + c / 0x40000 ≤ 0xF4 := by omega
    have hc1 : acceptLo (0xF0 + c / 0x40000) ≤ 0x80 + c / 4096 % 64
        ∧ 0x80 + c / 4096 % 64 ≤ acceptHi (0xF0 + c / 0x40000) := by
      constructor
      · rw [acceptLo]
        split
        · omega
        split
        · omega
        · omega
      · rw [acceptHi]
        split
        · omega
        split
        · omega
        · omega
    have hc2 : 0x80 ≤ 0x80 + c / 64 % 64 ∧ 0x80 + c / 64 % 64 ≤ 0xBF := by omega
    have hc3 : 0x80 ≤ 0x80 + c % 64 ∧ 0x80 + c % 64 ≤ 0xBF := by omega
    rw [he]
    rw [show ([0xF0 + c / 0x40000, 0x80 + c / 4096 % 64, 0x80 + c / 64 % 64,
              0x80 + c % 64] : List Nat) ++ tail =
          (0xF0 + c / 0x40000) :: (0x80 + c / 4096 % 64) :: (0x80 + c / 64 % 64) ::
            (0x80 + c % 64) :: tail from rfl,
        utf8T_cons4 _ _ _ _ hb hc1 hc2 hc3 tail atEOF]
    simp

theorem goRunes_cons_ascii (b : Nat) (hb : b < 0x80) (tail : List Nat) :
    goRunes (b :: tail) = b :: goRunes tail := by
  rcases tail with _ | ⟨t1, _ | ⟨t2, _ | ⟨t3, ts⟩⟩⟩ <;> simp [goRunes, hb]

theorem goRunes_cons2 (b c1 : Nat) (hb : 0xC2 ≤ b ∧ b ≤ 0xDF)
    (hc1 : acceptLo b ≤ c1 ∧ c1 ≤ acceptHi b) (tail : List Nat) :
    goRunes (b :: c1 :: tail) = ((b - 0xC0) * 64 + (c1 - 0x80)) :: goRunes tail := by
  rcases tail with _ | ⟨t1, _ | ⟨t2, ts⟩⟩ <;>
    simp [goRunes, show ¬ b < 0x80 by omega, hb, hc1]

theorem goRunes_cons3 (b c1 c2 : Nat) (hb : 0xE0 ≤ b ∧ b ≤ 0xEF)
    (hc1 : acceptLo b ≤ c1 ∧ c1 ≤ acceptHi b) (hc2 : 0x80 ≤ c2 ∧ c2 ≤ 0xBF)
    (tail : List Nat) :
    goRunes (b :: c1 :: c2 :: tail) =
      ((b - 0xE0) * 4096 + (c1 - 0x80) * 64 + (c2 - 0x80)) :: goRunes tail := by
  rcases tail with _ | ⟨t1, ts⟩ <;>
    simp [goRunes, show ¬ b < 0x80 by omega, show ¬ (0xC2 ≤ b ∧ b ≤ 0xDF) by omega, hb,
      hc1, hc2]

theorem goRunes_cons4 (b c1 c2 c3 : Nat) (hb : 0xF0 ≤ b ∧ b ≤ 0xF4)
    (hc1 : acceptLo b ≤ c1 ∧ c1 ≤ acceptHi b) (hc2 : 0x80 ≤ c2 ∧ c2 ≤ 0xBF)
    (hc3 : 0x80 ≤ c3 ∧ c3 ≤ 0xBF) (tail : List Nat) :
    goRunes (b :: c1 :: c2 :: c3 :: tail) =
      ((b - 0xF0) * 0x40000 + (c1 - 0x80) * 4096 + (c2 - 0x80) * 64 + (c3 - 0x80)) ::
        goRunes tail := by
  simp [goRunes, show ¬ b < 0x80 by omega, show ¬ (0xC2 ≤ b ∧ b ≤ 0xDF) by omega,
    show ¬ (0xE0 ≤ b ∧ b ≤ 0xEF) by omega, hb, hc1, hc2, hc3]

theorem goRunes_enc (c : Nat) (h : UScalar c) (tail : List Nat) :
    goRunes (utf8Enc c ++ tail) = c :: goRunes tail := by
  by_cases h1 : c < 0x80
  · have he : utf8Enc c = [c] := by rw [utf8Enc, if_pos h1]
    rw [he, List.cons_append, List.nil_append, goRunes_cons_ascii c h1 tail]
  by_cases h2 : c < 0x800
  · have he : utf8Enc c = [0xC0 + c / 64, 0x80 + c % 64] := by
      rw [utf8Enc, if_neg h1, if_pos h2]
    have hc1 : acceptLo (0xC0 + c / 64) ≤ 0x80 + c % 64
        ∧ 0x80 + c % 64 ≤ acceptHi (0xC0 + c / 64) := by
      rw [acceptLo, if_neg (by omega), if_neg (by omega),
          acceptHi, if_neg (by omega), if_neg (by omega)]
      omega
    rw [he]
    rw [show ([0xC0 + c / 64, 0x80 + c % 64] : List Nat) ++ tail =
          (0xC0 + c / 64) :: (0x80 + c % 64) :: tail from rfl,
        goRunes_cons2 _ _ (by omega) hc1 tail]
    rw [List.cons_eq_cons]
    exact ⟨by omega, rfl⟩
  by_cases h3 : c < 0x10000
  · have hs : ¬(0xD800 ≤ c ∧ c ≤ 0xDFFF) := by rcases h with h | h <;> omega
    have he : utf8Enc c = [0xE0 + c / 4096, 0x80 + c / 64 % 64, 0x80 + c % 64] := by
      rw [utf8Enc, if_neg h1, if_neg h2, if_neg hs, if_pos h3]
    have hc1 : acceptLo (0xE0 + c / 4096) ≤ 0x80 + c / 64 % 64
        ∧ 0x80 + c / 64 % 64 ≤ acceptHi (0xE0 + c / 4096) := by
      constructor
      · rw [acceptLo]
        split
        · omega
        split
        · omega
        · omega
      · rw [acceptHi]
        split
        · omega
        split
        · omega
        · omega
    rw [he]
    rw [show ([0xE0 + c / 4096, 0x80 + c / 64 % 64, 0x80 + c % 64] : List Nat) ++ tail =
          (0xE0 + c / 4096) :: (0x80 + c / 64 % 64) :: (0x80 + c % 64) :: tail from rfl,
        goRunes_cons3 _ _ _ (by omega) hc1 (by omega) tail]
    rw [List.cons_eq_cons]
    exact ⟨by omega, rfl⟩
  · have h4 : c ≤ 0x10FFFF := by rcases h with h | h <;> omega
    have hs : ¬(0xD800 ≤ c ∧ c ≤ 0xDFFF) := by omega
    have he : utf8Enc c =
        [0xF0 + c / 0x40000, 0x80 + c / 4096 % 64, 0x80 + c / 64 % 64, 0x80 + c % 64] := by
      rw [utf8Enc, if_neg h1, if_neg h2, if_neg hs, if_neg h3, if_pos h4]
    have hc1 : acceptLo (0xF0 + c / 0x40000) ≤ 0x80 + c / 4096 % 64
        ∧ 0x80 + c / 4096 % 64 ≤ acceptHi (0xF0 + c / 0x40000) := by
      constructor
      · rw [acceptLo]
        split
        · omega
        split
        · omega
        · omega
      · rw [acceptHi]
        split
        · omega
        split
        · omega
        · omega
    rw [he]
    rw [show ([0xF0 + c / 0x40000, 0x80 + c / 4096 % 64, 0x80 + c / 64 % 64,
              0x80 + c % 64] : List Nat) ++ tail =
          (0xF0 + c / 0x40000) :: (0x80 + c / 4096 % 64) :: (0x80 + c / 64 % 64) ::
            (0x80 + c % 64) :: tail from rfl,
        goRunes_cons4 _ _ _ _ (by omega) hc1 (by omega) (by omega) tail]
    rw [List.cons_eq_cons]
    exact ⟨by omega, rfl⟩

theorem utf8T_goStr : ∀ (s : List Nat), (∀ c ∈ s, UScalar c) →
    utf8T (goStrBytes s) true = (goStrBytes s, (goStrBytes s).length, false)
  | [], _ => rfl
  | c :: s1, h => by
    have ih := utf8T_goStr s1 (fun x hx => h x (List.mem_cons_of_mem _ hx))
    have hc : UScalar c := h c (List.mem_cons_self c s1)
    have hbytes : goStrBytes (c :: s1) = utf8Enc c ++ goStrBytes s1 := by
      simp [goStrBytes]
    rw [hbytes, utf8T_enc c hc _ true, ih]
    simp [List.length_append, Nat.add_comm]

theorem goRunes_goStr : ∀ (s : List Nat), (∀ c ∈ s, UScalar c) →
    goRunes (goStrBytes s) = s
  | [], _ => rfl
  | c :: s1, h => by
    have ih := goRunes_goStr s1 (fun x hx => h x (List.mem_cons_of_mem _ hx))
    have hc : UScalar c := h c (List.mem_cons_self c s1)
    have hbytes : goStrBytes (c :: s1) = utf8Enc c ++ goStrBytes s1 := by
      simp [goStrBytes]
    rw [hbytes, goRunes_enc c hc _, ih]

theorem utf8Enc_ne_nil (c : Nat) : utf8Enc c ≠ [] := by
  rw [utf8Enc]
  split
  · simp
  split
  · simp
  split
  · simp [repl]
  split
  · simp
  split
  · simp
  · simp [repl]

theorem enc_head_guard (c : Nat) (h : UScalar c) (hne : c ≠ 0xFEFF) (rest : List Nat) :
    ¬((utf8Enc c ++ rest).getD 0 0 = 0xEF ∧ (utf8Enc c ++ rest).getD 1 0 = 0xBB ∧
        (utf8Enc c ++ rest).getD 2 0 = 0xBF)
    ∧ ¬((utf8Enc c ++ rest).getD 0 0 = 0xFE ∧ (utf8Enc c ++ rest).getD 1 0 = 0xFF)
    ∧ ¬((utf8Enc c ++ rest).getD 0 0 = 0xFF ∧ (utf8Enc c ++ rest).getD 1 0 = 0xFE) := by
  by_cases h1 : c < 0x80
  · have he : utf8Enc c = [c] := by rw [utf8Enc, if_pos h1]
    rw [he]
    refine ⟨fun hx => ?_, fun hx => ?_, fun hx => ?_⟩ <;>
      · have := hx.1
        simp at this
        omega
  by_cases h2 : c < 0x800
  · have he : utf8Enc c = [0xC0 + c / 64, 0x80 + c % 64] := by
      rw [utf8Enc, if_neg h1, if_pos h2]
    rw [he]
    refine ⟨fun hx => ?_, fun hx => ?_, fun hx => ?_⟩ <;>
      · have := hx.1
        simp at this
        omega
  by_cases h3 : c < 0x10000
  · have hs : ¬(0xD800 ≤ c ∧ c ≤ 0xDFFF) := by rcases h with h | h <;> omega
    have he : utf8Enc c = [0xE0 + c / 4096, 0x80 + c / 64 % 64, 0x80 + c % 64] := by
      rw [utf8Enc, if_neg h1, if_neg h2, if_neg hs, if_pos h3]
    rw [he]
    refine ⟨fun hx => ?_, fun hx => ?_, fun hx => ?_⟩
    · have h0 := hx.1
      have hb1 := hx.2.1
      have hb2 := hx.2.2
      simp at h0 hb1 hb2
      exact hne (by omega)
    · have h0 := hx.1
      simp at h0
      omega
    · have h0 := hx.1
      simp at h0
      omega
  · have h4 : c ≤ 0x10FFFF := by rcases h with h | h <;> omega
    have hs : ¬(0xD800 ≤ c ∧ c ≤ 0xDFFF) := by omega
    have he : utf8Enc c =
        [0xF0 + c / 0x40000, 0x80 + c / 4096 % 64, 0x80 + c / 64 % 64, 0x80 + c % 64] := by
      rw [utf8Enc, if_neg h1, if_neg h2, if_neg hs, if_neg h3, if_pos h4]
    rw [he]
    refine ⟨fun hx => ?_, fun hx => ?_, fun hx => ?_⟩ <;>
      · have := hx.1
        simp at this
        omega

theorem transformT_bom_none_commit (fb : Fallback) (src : List Nat) (hne : src ≠ [])
    (hg1 : ¬(src.getD 0 0 = 0xEF ∧ src.getD 1 0 = 0xBB ∧ src.getD 2 0 = 0xBF))
    (hg2 : ¬(src.getD 0 0 = 0xFE ∧ src.getD 1 0 = 0xFF))
    (hg3 : ¬(src.getD 0 0 = 0xFF ∧ src.getD 1 0 = 0xFE)) :
    transformT (.bom fb none) src true =
      ((currentT fb.initial src true).1, .bom fb (some (currentT fb.initial src true).2)) := by
  have hlen : 0 < src.length := List.length_pos.mpr hne
  have hdet : bomDetect fb src = (fb.initial, 0) := by
    rw [bomDetect, if_neg hg1, if_neg hg2, if_neg hg3, ite_self]
  simp only [transformT]
  rw [hdet]
  simp [hlen]

/-- C8, amended.  For every string of Unicode scalar values that does not
begin with U+FEFF, encoding with the TextEncoder and decoding the resulting
bytes with a fresh default UTF-8 TextDecoder returns exactly the original
string: the encoder output is the UTF-8 byte sequence of the string, the
decoder returns those same bytes, and reading them back as runes gives the
original code points.  (A leading U+FEFF would be stripped as a byte order
mark, see the counterexample.) -/
theorem C8_amended :
    ∀ (s : List Nat), (∀ c ∈ s, UScalar c) → s.head? ≠ some 0xFEFF →
      freshTextEncoder.Encode s = .ok (goStrBytes s)
      ∧ ((freshTD .utf8 false false).Decode (goStrBytes s) false).1 = .ok (goStrBytes s)
      ∧ goRunes (goStrBytes s) = s := by
  intro s hs hh
  refine ⟨rfl, ?_, goRunes_goStr s hs⟩
  rcases s with _ | ⟨c, s1⟩
  · decide
  have hc : UScalar c := hs c (List.mem_cons_self c s1)
  have hne : c ≠ 0xFEFF := by
    intro hx
    exact hh (by simp [hx])
  have hbytes : goStrBytes (c :: s1) = utf8Enc c ++ goStrBytes s1 := by simp [goStrBytes]
  have hguard := enc_head_guard c hc hne (goStrBytes s1)
  have hbne : goStrBytes (c :: s1) ≠ [] := by
    rw [hbytes]
    simp [utf8Enc_ne_nil]
  have hcommit := transformT_bom_none_commit .fUTF8 (goStrBytes (c :: s1)) hbne
    (hbytes ▸ hguard.1) (hbytes ▸ hguard.2.1) (hbytes ▸ hguard.2.2)
  have hid := utf8T_goStr (c :: s1) hs
  rw [TextDecoder.Decode, if_neg (by decide)]
  simp [freshTD, newTransformer, Fallback.initial, currentT, hcommit, hid,
    List.drop_length, decodeEpilogue_flush_ok]

instance : DecidablePred UScalar := fun c => by
  unfold UScalar
  infer_instance

theorem utf8T_ascii : ∀ (a : List Nat), (∀ x ∈ a, x < 0x80) → ∀ (t : List Nat) (e : Bool),
    utf8T (a ++ t) e =
      (a ++ (utf8T t e).1, (utf8T t e).2.1 + a.length, (utf8T t e).2.2)
  | [], _, t, e => by simp
  | x :: a1, h, t, e => by
    have hx := h x (List.mem_cons_self x a1)
    have ih := utf8T_ascii a1 (fun y hy => h y (List.mem_cons_of_mem _ hy)) t e
    rw [List.cons_append, utf8T_cons_ascii x hx (a1 ++ t) e, ih]
    simp [List.length_cons]
    omega

theorem utf8T_ascii_nil (a : List Nat) (h : ∀ x ∈ a, x < 0x80) (e : Bool) :
    utf8T a e = (a, a.length, false) := by
  have h0 : utf8T ([] : List Nat) e = ([], 0, false) := by rcases e <;> rfl
  have := utf8T_ascii a h [] e
  rw [h0] at this
  simpa using this

theorem utf8T_cons_bad (v : Nat) (hv : 0xF5 ≤ v) (tail : List Nat) (e : Bool) :
    utf8T (v :: tail) e =
      (repl ++ (utf8T tail e).1, (utf8T tail e).2.1 + 1, (utf8T tail e).2.2) := by
  rcases tail with _ | ⟨t1, _ | ⟨t2, _ | ⟨t3, ts⟩⟩⟩ <;>
    simp [utf8T, show ¬ v < 0x80 by omega, show ¬ (0xC2 ≤ v ∧ v ≤ 0xDF) by omega,
      show ¬ (0xE0 ≤ v ∧ v ≤ 0xEF) by omega, show ¬ (0xF0 ≤ v ∧ v ≤ 0xF4) by omega,
      show ¬ ((0xC2 ≤ v ∧ v ≤ 0xDF) ∨ (0xE0 ≤ v ∧ v ≤ 0xEF) ∨ (0xF0 ≤ v ∧ v ≤ 0xF4))
        by omega]

theorem detect_cons_ascii (x : Nat) (hx : x < 0x80) (t : List Nat) :
    detectInvalidUTF8Sequences (x :: t) =
      ((detectInvalidUTF8Sequences t).1, x :: (detectInvalidUTF8Sequences t).2.1,
       (detectInvalidUTF8Sequences t).2.2) := by
  rcases t with _ | ⟨t1, _ | ⟨t2, _ | ⟨t3, ts⟩⟩⟩ <;> simp [detectInvalidUTF8Sequences, hx]

theorem detect_ascii_append : ∀ (a : List Nat), (∀ x ∈ a, x < 0x80) → ∀ (t : List Nat),
    detectInvalidUTF8Sequences (a ++ t) =
      ((detectInvalidUTF8Sequences t).1, a ++ (detectInvalidUTF8Sequences t).2.1,
       (detectInvalidUTF8Sequences t).2.2)
  | [], _, t => by simp
  | x :: a1, h, t => by
    have hx := h x (List.mem_cons_self x a1)
    have ih := detect_ascii_append a1 (fun y hy => h y (List.mem_cons_of_mem _ hy)) t
    rw [List.cons_append, detect_cons_ascii x hx (a1 ++ t), ih]
    simp

theorem detect_ascii_nil (a : List Nat) (h : ∀ x ∈ a, x < 0x80) :
    detectInvalidUTF8Sequences a = ([], a, []) := by
  have h0 : detectInvalidUTF8Sequences ([] : List Nat) = ([], [], []) := rfl
  have := detect_ascii_append a h []
  rw [h0] at this
  simpa using this

theorem detect_cons_bad (v : Nat) (hv : 0xF8 ≤ v) (t : List Nat) :
    detectInvalidUTF8Sequences (v :: t) =
      ([v] :: (detectInvalidUTF8Sequences t).1, (detectInvalidUTF8Sequences t).2.1,
       (detectInvalidUTF8Sequences t).2.2) := by
  rcases t with _ | ⟨t1, _ | ⟨t2, _ | ⟨t3, ts⟩⟩⟩ <;>
    simp [detectInvalidUTF8Sequences, show ¬ v < 0x80 by omega,
      show ¬ (0xC0 ≤ v ∧ v ≤ 0xDF) by omega, show ¬ (0xE0 ≤ v ∧ v ≤ 0xEF) by omega,
      show ¬ (0xF0 ≤ v ∧ v ≤ 0xF7) by omega]

theorem transformT_bom_defer (fb : Fallback) (src : List Nat) (h3 : src.length < 3) :
    transformT (.bom fb none) src false = (⟨[], 0, true⟩, .bom fb none) := by
  simp [transformT, h3]

theorem transformT_bom_none_commit_short (fb : Fallback) (src : List Nat)
    (hne : src ≠ []) (h3 : src.length < 3) :
    transformT (.bom fb none) src true =
      ((currentT fb.initial src true).1, .bom fb (some (currentT fb.initial src true).2)) := by
  have hlen : 0 < src.length := List.length_pos.mpr hne
  have hdet : bomDetect fb src = (fb.initial, 0) := by
    rw [bomDetect, if_neg (by omega)]
  simp only [transformT]
  rw [hdet]
  simp [hlen]

theorem decodeEpilogue_stream_ok (td : TextDecoder) (h : td.fatal = false)
    (out buf : List Nat) (tr : Transformer) :
    decodeEpilogue td true out buf tr =
      (.ok out, { td with transform := some tr, buffer := buf }) := by
  simp [decodeEpilogue, h]

theorem transformT_bom_none_commit_long (fb : Fallback) (src : List Nat)
    (h3 : 3 ≤ src.length)
    (hg1 : ¬(src.getD 0 0 = 0xEF ∧ src.getD 1 0 = 0xBB ∧ src.getD 2 0 = 0xBF))
    (hg2 : ¬(src.getD 0 0 = 0xFE ∧ src.getD 1 0 = 0xFF))
    (hg3 : ¬(src.getD 0 0 = 0xFF ∧ src.getD 1 0 = 0xFE)) (e : Bool) :
    transformT (.bom fb none) src e =
      ((currentT fb.initial src e).1, .bom fb (some (currentT fb.initial src e).2)) := by
  have hlen : 0 < src.length := by omega
  have hdet : bomDetect fb src = (fb.initial, 0) := by
    rw [bomDetect, if_pos h3, if_neg hg1, if_neg hg2, if_neg hg3]
  simp only [transformT]
  rw [if_neg (fun hc => absurd hc.1 (by omega)), hdet]
  simp [hlen]

theorem utf8T_ascii_bad_ascii (a b : List Nat) (ha : ∀ x ∈ a, x < 0x80)
    (hb : ∀ x ∈ b, x < 0x80) (e : Bool) :
    utf8T (a ++ 0xFF :: b) e = ((a ++ repl) ++ b, b.length + 1 + a.length, false) := by
  rw [utf8T_ascii a ha (0xFF :: b) e, utf8T_cons_bad 0xFF (by omega) b e,
    utf8T_ascii_nil b hb e]
  simp [List.append_assoc]

theorem detect_ascii_bad_ascii (a b : List Nat) (ha : ∀ x ∈ a, x < 0x80)
    (hb : ∀ x ∈ b, x < 0x80) :
    detectInvalidUTF8Sequences (a ++ 0xFF :: b) = ([[0xFF]], a ++ b, []) := by
  rw [detect_ascii_append a ha (0xFF :: b), detect_cons_bad 0xFF (by omega) b,
    detect_ascii_nil b hb]

/-- Witness for C8: the two-character string H, U+1F31F satisfies the
hypotheses and round-trips. -/
theorem C8_amended_witness :
    (∀ c ∈ ([0x48, 0x1F31F] : List Nat), UScalar c)
    ∧ ([0x48, 0x1F31F] : List Nat).head? ≠ some 0xFEFF
    ∧ (freshTextEncoder.Encode [0x48, 0x1F31F] = .ok (goStrBytes [0x48, 0x1F31F])
       ∧ ((freshTD .utf8 false false).Decode (goStrBytes [0x48, 0x1F31F]) false).1 =
           .ok (goStrBytes [0x48, 0x1F31F])
       ∧ goRunes (goStrBytes [0x48, 0x1F31F]) = [0x48, 0x1F31F]) :=
  ⟨by decide, by decide, C8_amended [0x48, 0x1F31F] (by decide) (by decide)⟩

/-- C2, amended.  For any ASCII context around an invalid byte (here 0xFF,
which opens no multi-byte sequence): in a non-streaming call the invalid
span yields exactly one U+FFFD at the position where the span occurs
relative to the validly decoded characters (a, FF, b decodes to a, U+FFFD,
b — in particular 41 FF 42 to A, U+FFFD, B), and scanning advances past the
span without re-consuming its bytes; in a streaming call the replacement
characters for the invalid spans detected in the working buffer are instead
emitted before the decoded valid characters of that call (a, FF, b with
stream true decodes to U+FFFD, a, b). -/
theorem C2_amended (a b : List Nat) (ha : ∀ x ∈ a, x < 0x80)
    (hb : ∀ x ∈ b, x < 0x80) :
    ((freshTD .utf8 false false).Decode (a ++ 0xFF :: b) false).1 =
      .ok ((a ++ repl) ++ b)
    ∧ ((freshTD .utf8 false false).Decode (a ++ 0xFF :: b) true).1 =
      .ok (repl ++ (a ++ b)) := by
  have hab : ∀ x ∈ a ++ b, x < 0x80 := by
    intro x hx
    rcases List.mem_append.1 hx with h | h
    · exact ha x h
    · exact hb x h
  constructor
  · -- non-streaming call: the transformer sees the whole input at EOF
    have hne : (a ++ 0xFF :: b) ≠ [] := by
      intro h
      exact absurd (List.append_eq_nil.1 h).2 (List.cons_ne_nil _ _)
    have hhead : (a ++ 0xFF :: b).getD 0 0 < 0x80 ∨
        ((a ++ 0xFF :: b).getD 0 0 = 0xFF ∧ (a ++ 0xFF :: b).getD 1 0 ≠ 0xFE) := by
      rcases a with _ | ⟨x, a1⟩
      · right
        refine ⟨rfl, ?_⟩
        rcases b with _ | ⟨y, b1⟩
        · decide
        · have hy := hb y (List.mem_cons_self y b1)
          simp only [List.nil_append, List.getD_cons_succ, List.getD_cons_zero]
          omega
      · left
        have hx := ha x (List.mem_cons_self x a1)
        simpa using hx
    have hg1 : ¬((a ++ 0xFF :: b).getD 0 0 = 0xEF ∧ (a ++ 0xFF :: b).getD 1 0 = 0xBB ∧
        (a ++ 0xFF :: b).getD 2 0 = 0xBF) := by
      rcases hhead with h | ⟨h1, h2⟩ <;> · intro hc; omega
    have hg2 : ¬((a ++ 0xFF :: b).getD 0 0 = 0xFE ∧ (a ++ 0xFF :: b).getD 1 0 = 0xFF) := by
      rcases hhead with h | ⟨h1, h2⟩ <;> · intro hc; omega
    have hg3 : ¬((a ++ 0xFF :: b).getD 0 0 = 0xFF ∧ (a ++ 0xFF :: b).getD 1 0 = 0xFE) := by
      rcases hhead with h | ⟨h1, h2⟩ <;> · intro hc; omega
    have htrans := transformT_bom_none_commit .fUTF8 (a ++ 0xFF :: b) hne hg1 hg2 hg3
    have hut := utf8T_ascii_bad_ascii a b ha hb true
    have hdrop : (a ++ 0xFF :: b).drop (b.length + 1 + a.length) = [] := by
      apply List.drop_eq_nil_of_le
      rw [List.length_append, List.length_cons]
      omega
    simp [TextDecoder.Decode, freshTD, newTransformer, htrans, Fallback.initial,
      currentT, hut, hdrop, decodeEpilogue_flush_ok]
  · -- streaming call: the invalid span is detected up front and its
    -- replacement prepended; case split on how much the BOM wrapper defers
    by_cases h3 : 3 ≤ (a ++ b).length
    · have hne2 : (a ++ b) ≠ [] := by
        intro h
        rw [h] at h3
        simp at h3
      have hdet := detect_ascii_bad_ascii a b ha hb
      obtain ⟨y, l1, hl⟩ := List.exists_cons_of_ne_nil hne2
      have hy : y < 0x80 := hab y (by rw [hl]; exact List.mem_cons_self y l1)
      have hhead : (a ++ b).getD 0 0 < 0x80 := by
        rw [hl]
        simpa using hy
      have hg1 : ¬((a ++ b).getD 0 0 = 0xEF ∧ (a ++ b).getD 1 0 = 0xBB ∧
          (a ++ b).getD 2 0 = 0xBF) := by intro hc; omega
      have hg2 : ¬((a ++ b).getD 0 0 = 0xFE ∧ (a ++ b).getD 1 0 = 0xFF) := by
        intro hc; omega
      have hg3 : ¬((a ++ b).getD 0 0 = 0xFF ∧ (a ++ b).getD 1 0 = 0xFE) := by
        intro hc; omega
      have htrans := transformT_bom_none_commit_long .fUTF8 (a ++ b) h3 hg1 hg2 hg3 false
      have hut := utf8T_ascii_nil (a ++ b) hab false
      simp [TextDecoder.Decode, freshTD, newTransformer, hdet, htrans, Fallback.initial,
        currentT, hut, List.drop_length, decodeEpilogue_stream_ok]
    · by_cases h0 : (a ++ b) = []
      · obtain ⟨ha0, hb0⟩ := List.append_eq_nil.1 h0
        subst ha0
        subst hb0
        decide
      · have hlt : (a ++ b).length < 3 := by omega
        have hdet := detect_ascii_bad_ascii a b ha hb
        have hdefer := transformT_bom_defer .fUTF8 (a ++ b) hlt
        have hretry := transformT_bom_none_commit_short .fUTF8 (a ++ b) h0 hlt
        have hut := utf8T_ascii_nil (a ++ b) hab true
        simp [TextDecoder.Decode, freshTD, newTransformer, hdet, hdefer, hretry,
          Fallback.initial, currentT, hut, List.drop_length, decodeEpilogue_stream_ok, h0]

/-- Witness for C2: the context A, B around the invalid byte FF satisfies
the hypotheses and reproduces the two decodes of the amended statement. -/
theorem C2_amended_witness :
    ((freshTD .utf8 false false).Decode ([0x41] ++ 0xFF :: [0x42]) false).1 =
      .ok (([0x41] ++ repl) ++ [0x42])
    ∧ ((freshTD .utf8 false false).Decode ([0x41] ++ 0xFF :: [0x42]) true).1 =
      .ok (repl ++ ([0x41] ++ [0x42])) :=
  C2_amended [0x41] [0x42] (by decide) (by decide)

end XK6
